import Mathlib

/-!
# Verification of the mendeley-backup reconciliation engine

This file contains a shallow embedding, in Lean 4, of the parts of the
mendeley-backup repository that the specification's claims are about:

* `Formatting.py` — author formatting and path-character sanitation,
* `ActionHistory.py` — the per-run action log and its action records,
* `BackupInfo.py` / `DocumentInfo.py` — the persisted backup state and
  per-document records, together with their JSON encoders and loaders,
* `BackupWorker.py` — the download helper, the per-document file handling,
  the orphan sweep and the `execute` reconciliation driver.

Python dictionaries are embedded as insertion-ordered association lists,
`bidict` values as association lists whose operations enforce the
bidirectional uniqueness discipline of the library (value duplication
raises), and the filesystem as an explicit structure of directory paths and
file paths with typed contents.  Where the Python code iterates over a
`set` (whose order is unspecified), the embedding fixes first-insertion
order; no theorem below depends on a different order being impossible.
-/

set_option autoImplicit false

namespace MendeleyBackup

/-! ## Paths

Paths are lists of segments.  `pathlib` joining with a string containing
`/` splits it into several segments; `splitPath` mirrors that.
-/

abbrev Path := List String

/-- `String.splitOn "/"`, written as a structural recursion over the
characters. -/
def splitPathAux : List Char → List Char → List String
  | [], acc => [String.mk acc.reverse]
  | c :: rest, acc =>
    if c = '/' then String.mk acc.reverse :: splitPathAux rest []
    else splitPathAux rest (c :: acc)

/-- Split a relative path string on `/` into its segments, as
`pathlib.Path` does when joining string fragments (empty segments
collapse). -/
def splitPath (s : String) : Path :=
  (splitPathAux s.data []).filter (fun seg => seg ≠ "")

/-- `PurePath.is_relative_to`: the candidate prefix's segments must be an
initial segment of the path's segments. -/
def isRelativeTo (p : Path) (q : Path) : Bool :=
  decide (q <+: p)

/-! ## `Formatting.py` -/

/-- Python `sep.join(xs)` (`str.join`). -/
def pyJoin (sep : String) : List String → String
  | [] => ""
  | [x] => x
  | x :: y :: xs => x ++ sep ++ pyJoin sep (y :: xs)

/-- `Formatting.format_authors` (Formatting.py lines 20–28), applied by the
worker to the list of author last names. -/
def format_authors (authors : List String) : String :=
  if authors.length = 0 then "Unknown"
  else if authors.length = 1 then authors.headI
  else if authors.length ≤ 3 then
    pyJoin ", " authors.dropLast ++ " & " ++ authors.getLastD ""
  else authors.headI ++ " et al."

/-- The character class of `Formatting.escape_regexp`, the regular
expression `[\/:*?"<>|]` (Formatting.py line 30).  Inside a regex character
class `\/` denotes the single character `/`, so the class matches exactly
the eight characters below; a backslash is *not* matched. -/
def isEscapedChar (c : Char) : Bool :=
  c = '/' || c = ':' || c = '*' || c = '?' || c = '"' || c = '<' || c = '>' || c = '|'

/-- `Formatting.replace_invalid_characters` (Formatting.py lines 31–32):
`escape_regexp.sub('_', path)`, i.e. each matched character becomes `_`. -/
def replace_invalid_characters (path : String) : String :=
  String.mk (path.data.map (fun c => if isEscapedChar c then '_' else c))

/-- The character set the specification names: the reserved path characters
`/ \ : * ? " < > |` — *including* the backslash.  This definition follows
the spec's words, for comparison with `isEscapedChar` from the source. -/
def isSpecReservedChar (c : Char) : Bool :=
  c = '/' || c = '\\' || c = ':' || c = '*' || c = '?' || c = '"' || c = '<' || c = '>' || c = '|'

/-! ## Remote documents (the external Mendeley data, read-only input) -/

/-- Outcome of `requests.get(file.download_url, stream=True)` together with
the streaming of the body, for one download attempt (an external input to
the program). `failBeforeOpen`: the request raises before
`open(file_path, 'wb')` runs, so no file is created; `failAfterOpen`: the
request succeeds but streaming raises after the file has been opened (and
truncated / partially written). -/
inductive FetchResult where
  | success (hash : String)
  | failBeforeOpen
  | failAfterOpen
  deriving DecidableEq, Repr

/-- A remote file descriptor: `{id, file_name, filehash, download_url}`,
with the behaviour of its download handle. -/
structure RemoteFile where
  id : String
  file_name : String
  filehash : String
  fetch : FetchResult
  deriving DecidableEq, Repr

structure Person where
  first_name : String
  last_name : String
  deriving DecidableEq, Repr

/-- A remote document, restricted to the metadata fields the claims are
about (the remaining metadata fields are irrelevant to every theorem
below and are omitted from the embedding). -/
structure RemoteDoc where
  id : String
  title : String
  year : Option Int
  authors : List Person
  last_modified : Int
  files : List RemoteFile
  deriving DecidableEq, Repr

/-! ## `bidict` (bidirectional mapping, embedded as an insertion-ordered
association list).  The operations mirror the bidict library's default
policy: overwriting an existing key is allowed, introducing a value that a
*different* key already holds raises `ValueDuplicationError`. -/

abbrev Bidict := List (String × String)

def bdGet? (bd : Bidict) (k : String) : Option String :=
  (bd.find? (fun e => e.1 = k)).map Prod.snd

def bdInv? (bd : Bidict) (v : String) : Option String :=
  (bd.find? (fun e => e.2 = v)).map Prod.fst

def bdContains (bd : Bidict) (k : String) : Bool :=
  (bdGet? bd k).isSome

def bdKeys (bd : Bidict) : List String := bd.map Prod.fst

def bdValues (bd : Bidict) : List String := bd.map Prod.snd

/-- Key update as in a Python dict: in-place if the key exists, appended
otherwise. -/
def bdSetKeep (bd : Bidict) (k v : String) : Bidict :=
  if bdContains bd k then bd.map (fun e => if e.1 = k then (k, v) else e)
  else bd ++ [(k, v)]

/-- `bidict.__setitem__`. -/
def bdSet (bd : Bidict) (k v : String) : Except String Bidict :=
  match bdInv? bd v with
  | some k2 => if k2 = k then .ok (bdSetKeep bd k v) else .error "ValueDuplicationError"
  | none => .ok (bdSetKeep bd k v)

/-- `del bd[k]`. -/
def bdDel (bd : Bidict) (k : String) : Except String Bidict :=
  if bdContains bd k then .ok (bd.filter (fun e => e.1 ≠ k)) else .error "KeyError"

/-- `bd.pop(k)`. -/
def bdPop (bd : Bidict) (k : String) : Except String (String × Bidict) :=
  match bdGet? bd k with
  | some v => .ok (v, bd.filter (fun e => e.1 ≠ k))
  | none => .error "KeyError"

/-- `bidict(mapping)` construction from a key-unique mapping's items. -/
def bdOfList (l : List (String × String)) : Except String Bidict :=
  l.foldlM (fun bd e => bdSet bd e.1 e.2) []

/-- The invariant the bidict library maintains: keys pairwise distinct and
values pairwise distinct. -/
def bdWF (bd : Bidict) : Prop :=
  (bd.map Prod.fst).Nodup ∧ (bd.map Prod.snd).Nodup

instance (bd : Bidict) : Decidable (bdWF bd) := by
  unfold bdWF; infer_instance

/-! ## `ActionHistory.py` -/

/-- The action records.  One variant per class of `ActionHistory.py`; the
fields are the attributes the instances carry. -/
inductive Action where
  | noneAction (document_id : String)
  | add (document_id : String) (path : String)
  | remove (document_id : String) (old_path : String)
  | update (document_id : String) (path : String)
  | moveAndUpdate (document_id : String) (old_path : String) (path : String)
  deriving DecidableEq, Repr

/-- `MoveAndUpdateAction.__init__` (ActionHistory.py lines 17–21).  The
source reads `self.old_path = path; self.path = path`: the `old_path`
argument is never stored. -/
def mkMoveAndUpdateAction (document_id old_path path : String) : Action :=
  Action.moveAndUpdate document_id path path

def Action.document_id : Action → String
  | .noneAction d => d
  | .add d _ => d
  | .remove d _ => d
  | .update d _ => d
  | .moveAndUpdate d _ _ => d

/-- Reading `action.path` (an `AttributeError` on variants without it). -/
def Action.pathOf : Action → Except String String
  | .add _ p => .ok p
  | .update _ p => .ok p
  | .moveAndUpdate _ _ p => .ok p
  | _ => .error "AttributeError: path"

/-- Writing `action.path = v` (BackupWorker.py line 306). -/
def Action.setPath : Action → String → Except String Action
  | .add d _, v => .ok (.add d v)
  | .update d _, v => .ok (.update d v)
  | .moveAndUpdate d op _, v => .ok (.moveAndUpdate d op v)
  | _, _ => .error "AttributeError: path"

/-- `ActionHistory.actions`: a Python dict keyed by `action.document_id`. -/
abbrev ActionHist := List (String × Action)

/-- `ActionHistory.add_action`. -/
def addAction (h : ActionHist) (a : Action) : ActionHist :=
  if h.any (fun e => e.1 = a.document_id) then
    h.map (fun e => if e.1 = a.document_id then (e.1, a) else e)
  else h ++ [(a.document_id, a)]

/-- `ActionHistory.remove_action` (`del self.actions[doc_id]`). -/
def removeAction (h : ActionHist) (doc_id : String) : Except String ActionHist :=
  if h.any (fun e => e.1 = doc_id) then .ok (h.filter (fun e => e.1 ≠ doc_id))
  else .error "KeyError"

/-- `ActionHistory.get_action`. -/
def getAction (h : ActionHist) (doc_id : String) : Except String Action :=
  match h.find? (fun e => e.1 = doc_id) with
  | some e => .ok e.2
  | none => .error "KeyError"

/-! ## JSON values

The persisted files are JSON text.  The embedding works with the JSON
value tree; `isoDatetime t` stands for the ISO-8601 string
`datetime(t).isoformat()` (the `isoformat`/`fromisoformat` pair of the
standard library is injective on datetimes, which is all the development
relies on). -/

inductive Json where
  | null
  | str (s : String)
  | num (n : Int)
  | isoDatetime (t : Int)
  | arr (elems : List Json)
  | obj (members : List (String × Json))
  deriving Inhabited

/-- `data['k']` on a parsed JSON object (`KeyError`/`TypeError` on
failure). -/
def jsonLookup (j : Json) (k : String) : Except String Json :=
  match j with
  | .obj members =>
    match members.find? (fun e => e.1 = k) with
    | some e => .ok e.2
    | none => .error "KeyError"
  | _ => .error "TypeError: not a JSON object"

def parseJsonStr : Json → Except String String
  | .str s => .ok s
  | _ => .error "TypeError: not a string"

/-- `datetime.fromisoformat(x)`: only defined on the ISO strings datetimes
serialize to; raises on anything else (in particular on `None`). -/
def parseDatetime : Json → Except String Int
  | .isoDatetime t => .ok t
  | _ => .error "TypeError: fromisoformat"

/-- A JSON object read back as a string-to-string mapping's items. -/
def parseStrMap (j : Json) : Except String (List (String × String)) :=
  match j with
  | .obj members => members.mapM (fun e => do pure (e.1, ← parseJsonStr e.2))
  | _ => .error "TypeError: not a JSON object"

/-! ## `BackupInfo.py` -/

/-- The Backup State (`BackupInfo`): the template pattern, the previous
run's timestamp (`None` before the first completed run) and the bidict
document-id ↔ relative-path. -/
structure BackupInfo where
  pattern : String
  last_backup_time : Option Int
  documents : Bidict
  deriving DecidableEq, Repr

/-- `BackupInfo.__init__(pattern)`. -/
def BackupInfo.fresh (pattern : String) : BackupInfo :=
  { pattern := pattern, last_backup_time := none, documents := [] }

/-- `BackupInfo.used_by_other_document` (BackupInfo.py lines 47–48). -/
def used_by_other_document (b : BackupInfo) (id path : String) : Bool :=
  match bdInv? b.documents path with
  | some k => k ≠ id
  | none => false

/-- `BackupInfo.contains_documents` (BackupInfo.py lines 43–45). -/
def contains_documents (b : BackupInfo) (dir : Path) : Bool :=
  b.documents.any (fun e => isRelativeTo (splitPath e.2) dir)

def encodeDatetime : Option Int → Json
  | none => Json.null
  | some t => Json.isoDatetime t

/-- `BackupInfoEncoder.default` on a `BackupInfo` (BackupInfo.py lines
23–36): the serialized object. -/
def encodeBackupInfo (b : BackupInfo) : Json :=
  Json.obj [("last_backup_time", encodeDatetime b.last_backup_time),
            ("documents", Json.obj (b.documents.map (fun e => (e.1, Json.str e.2)))),
            ("pattern", Json.str b.pattern)]

/-- `BackupInfo.load` (BackupInfo.py lines 55–62) applied to the parsed
JSON of the file. -/
def BackupInfo.load (j : Json) : Except String BackupInfo := do
  let pat ← parseJsonStr (← jsonLookup j "pattern")
  let t ← parseDatetime (← jsonLookup j "last_backup_time")
  let docs ← bdOfList (← parseStrMap (← jsonLookup j "documents"))
  pure { pattern := pat, last_backup_time := some t, documents := docs }

/-! ## `DocumentInfo.py` -/

/-- A Document Record: the document metadata snapshot plus the bidict
file-id ↔ filename. -/
structure DocumentInfo where
  document : RemoteDoc
  files : Bidict
  deriving DecidableEq, Repr

/-- `DocumentInfo.used_by_other_file` (DocumentInfo.py lines 81–83). -/
def used_by_other_file (di : DocumentInfo) (id filename : String) : Bool :=
  match bdInv? di.files filename with
  | some k => k ≠ id
  | none => false

def encodePerson (p : Person) : Json :=
  Json.obj [("first_name", Json.str p.first_name), ("last_name", Json.str p.last_name)]

/-- `DocumentEncoder.default` on a `UserDocument`, restricted to the
metadata fields the embedding carries. -/
def encodeDocument (d : RemoteDoc) : Json :=
  Json.obj [("authors", Json.arr (d.authors.map encodePerson)),
            ("id", Json.str d.id),
            ("title", Json.str d.title),
            ("year", match d.year with | none => Json.null | some y => Json.num y),
            ("last_modified", Json.isoDatetime d.last_modified)]

/-- `DocumentEncoder.default` on a `DocumentInfo` (DocumentInfo.py lines
31–33). -/
def encodeDocumentInfo (di : DocumentInfo) : Json :=
  Json.obj [("document", encodeDocument di.document),
            ("files", Json.obj (di.files.map (fun e => (e.1, Json.str e.2))))]

/-- `DocumentInfo.load_files` (DocumentInfo.py lines 90–94) applied to the
parsed JSON of the file. -/
def DocumentInfo.load_files (j : Json) : Except String Bidict := do
  bdOfList (← parseStrMap (← jsonLookup j "files"))

/-! ## The filesystem

A filesystem is an explicit finite structure: a list of existing
directories (so that empty directories are represented) and a list of
files with typed contents.  All paths are absolute, rooted at the
process's working directory (the root `[]` always exists and is not
listed).  `blob h` is a downloaded payload whose SHA-1 is `h`;
`jsonFile j` is a serialized JSON text. -/

inductive FileData where
  | blob (hash : String)
  | jsonFile (j : Json)

structure FS where
  dirs : List Path
  files : List (Path × FileData)

def FS.isDir (fs : FS) (p : Path) : Bool :=
  fs.dirs.any (fun q => q = p)

def FS.readFile (fs : FS) (p : Path) : Option FileData :=
  (fs.files.find? (fun e => e.1 = p)).map Prod.snd

def FS.isFile (fs : FS) (p : Path) : Bool :=
  fs.files.any (fun e => e.1 = p)

/-- `Path.exists()` (true for files and directories alike). -/
def FS.pathExists (fs : FS) (p : Path) : Bool :=
  fs.isDir p || fs.isFile p

/-- The immediate entries of a directory (`Path.iterdir()`); subdirectories
first, then files (the OS order is unspecified, and nothing below depends
on it). -/
def FS.children (fs : FS) (p : Path) : List Path :=
  fs.dirs.filter (fun q => q.dropLast = p ∧ q ≠ []) ++
    (fs.files.map Prod.fst).filter (fun q => q.dropLast = p ∧ q ≠ [])

/-- `Path.mkdir(parents=True, exist_ok=True)`: creates every missing
ancestor; raises when a file is in the way. -/
def FS.mkdirParents (fs : FS) (p : Path) : Except String FS :=
  if p.inits.any (fun q => fs.isFile q) then .error "FileExistsError: mkdir"
  else .ok { fs with
    dirs := fs.dirs ++ p.inits.filter (fun q => q ≠ [] ∧ ¬ fs.isDir q) }

/-- `open(p, 'w'/'wb')` followed by a full write: the parent directory must
exist and the target must not be a directory; an existing file is
replaced. -/
def FS.writeFile (fs : FS) (p : Path) (d : FileData) : Except String FS :=
  if fs.isDir p then .error "IsADirectoryError: open"
  else if p = [] then .error "IsADirectoryError: open"
  else if ¬ (p.dropLast = [] ∨ fs.isDir p.dropLast) then .error "FileNotFoundError: open"
  else if fs.isFile p then
    .ok { fs with files := fs.files.map (fun e => if e.1 = p then (p, d) else e) }
  else .ok { fs with files := fs.files ++ [(p, d)] }

/-- `Path.unlink()`. -/
def FS.unlink (fs : FS) (p : Path) : Except String FS :=
  if fs.isFile p then .ok { fs with files := fs.files.filter (fun e => e.1 ≠ p) }
  else if fs.isDir p then .error "IsADirectoryError: unlink"
  else .error "FileNotFoundError: unlink"

/-- `shutil.rmtree(p)`: removes the directory `p` and everything below it;
raises if `p` is not a directory. -/
def FS.rmtree (fs : FS) (p : Path) : Except String FS :=
  if fs.isDir p then
    .ok { dirs := fs.dirs.filter (fun q => ¬ p <+: q),
          files := fs.files.filter (fun e => ¬ p <+: e.1) }
  else .error "NotADirectoryError: rmtree"

/-- `Path.rmdir()` on an empty directory. -/
def FS.rmdir (fs : FS) (p : Path) : Except String FS :=
  if fs.isDir p ∧ fs.children p = [] then
    .ok { fs with dirs := fs.dirs.filter (fun q => q ≠ p) }
  else .error "OSError: rmdir"

/-- `os.rename(src, dst)` with POSIX `rename(2)` semantics: a file may
replace a file; a directory may replace an empty directory; a non-empty
destination directory, a type mismatch, a missing source or a missing
destination parent raise. -/
def FS.osRename (fs : FS) (src dst : Path) : Except String FS :=
  if ¬ (dst.dropLast = [] ∨ fs.isDir dst.dropLast) then .error "FileNotFoundError: rename"
  else if src <+: dst ∧ src ≠ dst then .error "EINVAL: rename into itself"
  else match fs.readFile src with
  | some d =>
    if fs.isDir dst then .error "IsADirectoryError: rename"
    else .ok { fs with files := (fs.files.filter (fun e => e.1 ≠ src ∧ e.1 ≠ dst)) ++ [(dst, d)] }
  | none =>
    if ¬ fs.isDir src then .error "FileNotFoundError: rename"
    else if fs.isFile dst then .error "NotADirectoryError: rename"
    else if fs.isDir dst ∧ ¬ (fs.children dst = []) then .error "ENOTEMPTY: rename"
    else
      let remap : Path → Path := fun q => if src <+: q then dst ++ q.drop src.length else q
      .ok { dirs := ((fs.dirs.filter (fun q => ¬ q = dst)).map remap).dedup,
            files := fs.files.map (fun e => (remap e.1, e.2)) }

/-- The structural sanity of a real on-disk tree: no duplicate paths, no
path that is both a file and a directory, every non-root entry's parent an
existing directory, and nothing nested below a file. -/
def FS.wf (fs : FS) : Prop :=
  fs.dirs.Nodup ∧ (fs.files.map Prod.fst).Nodup
  ∧ (∀ p ∈ fs.dirs, p ≠ [] ∧ (p.dropLast = [] ∨ p.dropLast ∈ fs.dirs))
  ∧ (∀ e ∈ fs.files, e.1 ≠ [] ∧ (e.1.dropLast = [] ∨ e.1.dropLast ∈ fs.dirs))
  ∧ (∀ e ∈ fs.files, ∀ q ∈ fs.dirs, ¬ e.1 <+: q)
  ∧ (∀ e ∈ fs.files, ∀ e2 ∈ fs.files, e.1 <+: e2.1 → e.1 = e2.1)

instance (fs : FS) : Decidable (FS.wf fs) := by
  unfold FS.wf; infer_instance

/-! ## `PercentTemplate.substitute`

`string.Template` with delimiter `%`: `%%` is a literal percent sign,
`%name` and `%{name}` substitute the named value (`KeyError` when absent
from the mapping), and a delimiter followed by anything else raises
`ValueError`.  The scan is a single left-to-right pass implemented here as
a mode-carrying structural recursion over the characters. -/

def identStartChar (c : Char) : Bool := c.isAlpha || c = '_'

def identChar (c : Char) : Bool := c.isAlphanum || c = '_'

def isIdentName (l : List Char) : Bool :=
  match l with
  | [] => false
  | c :: rest => identStartChar c && rest.all identChar

def lookupMapping (mapping : List (String × String)) (name : List Char) : Except String String :=
  match mapping.find? (fun e => e.1 = String.mk name) with
  | some e => .ok e.2
  | none => .error "KeyError: substitute"

inductive SubMode where
  | normal
  | afterDelim
  | inIdent (acc : List Char)
  | inBraced (acc : List Char)

def subAux (mapping : List (String × String)) : SubMode → List Char → Except String (List Char)
  | .normal, [] => .ok []
  | .normal, c :: rest =>
    if c = '%' then subAux mapping .afterDelim rest
    else (c :: ·) <$> subAux mapping .normal rest
  | .afterDelim, [] => .error "ValueError: Invalid placeholder"
  | .afterDelim, c :: rest =>
    if c = '%' then ('%' :: ·) <$> subAux mapping .normal rest
    else if c = '{' then subAux mapping (.inBraced []) rest
    else if identStartChar c then subAux mapping (.inIdent [c]) rest
    else .error "ValueError: Invalid placeholder"
  | .inIdent acc, [] => do
    let v ← lookupMapping mapping acc
    pure v.data
  | .inIdent acc, c :: rest =>
    if identChar c then subAux mapping (.inIdent (acc ++ [c])) rest
    else do
      let v ← lookupMapping mapping acc
      if c = '%' then (fun t => v.data ++ t) <$> subAux mapping .afterDelim rest
      else (fun t => v.data ++ c :: t) <$> subAux mapping .normal rest
  | .inBraced _, [] => .error "ValueError: Invalid placeholder"
  | .inBraced acc, c :: rest =>
    if c = '}' then
      if isIdentName acc then do
        let v ← lookupMapping mapping acc
        (fun t => v.data ++ t) <$> subAux mapping .normal rest
      else .error "ValueError: Invalid placeholder"
    else subAux mapping (.inBraced (acc ++ [c])) rest

/-- `PercentTemplate(template).substitute(mapping)`. -/
def substitute (template : String) (mapping : List (String × String)) : Except String String :=
  String.mk <$> subAux mapping .normal template.data

/-! ## `BackupWorker.py` — path rendering and the download helper -/

/-- Python `str` applied to the (possibly absent) year field. -/
def format_year : Option Int → String
  | none => "None"
  | some y => toString y

/-- `BackupWorker._get_document_path` (BackupWorker.py lines 39–45). -/
def get_document_path (binfo : BackupInfo) (document : RemoteDoc) : Except String String :=
  substitute binfo.pattern
    [("authors", replace_invalid_characters (format_authors (document.authors.map Person.last_name))),
     ("year", format_year document.year),
     ("title", replace_invalid_characters document.title)]

/-- The `except` branch of `_download_file` (BackupWorker.py lines 57–60):
print a warning, then `file_path.unlink()` — which itself raises
`FileNotFoundError` when no file exists at `file_path`, and that exception
propagates out of the handler. -/
def downloadExceptHandler (fs : FS) (p : Path) : Except String (FS × Bool) :=
  match fs.unlink p with
  | .ok fs' => .ok (fs', false)
  | .error _ => .error "FileNotFoundError: unlink in download except-handler"

/-- `BackupWorker._download_file` (BackupWorker.py lines 50–60).  The body
streams the response into a freshly opened file and returns `True`; any
exception lands in `downloadExceptHandler`. -/
def download_file (fs : FS) (file : RemoteFile) (file_path : Path) : Except String (FS × Bool) :=
  match file.fetch with
  | .success h =>
    match fs.writeFile file_path (.blob h) with
    | .ok fs' => .ok (fs', true)
    | .error _ => downloadExceptHandler fs file_path
  | .failBeforeOpen => downloadExceptHandler fs file_path
  | .failAfterOpen =>
    match fs.writeFile file_path (.blob "partial download") with
    | .ok fs' => downloadExceptHandler fs' file_path
    | .error _ => downloadExceptHandler fs file_path

/-- `calculate_checksum` (BackupWorker.py lines 29–36) on the contents of a
file.  A `blob h` has SHA-1 `h` by construction; the checksum of a
serialized JSON text is abstracted by a fixed tag (no theorem below
compares it against a remote file hash). -/
def calculate_checksum : FileData → String
  | .blob h => h
  | .jsonFile _ => "sha1-of-json-text"

/-- `BackupWorker._file_needs_update` (BackupWorker.py lines 62–63). -/
def file_needs_update (fs : FS) (file : RemoteFile) (file_path : Path) : Except String Bool :=
  if fs.isDir file_path then .error "IsADirectoryError: open"
  else match fs.readFile file_path with
  | some d => .ok (file.filehash ≠ calculate_checksum d)
  | none => .error "FileNotFoundError: open"

/-! ## `BackupWorker._handle_document` -/

/-- Open and parse a document record file (`DocumentInfo.load_files` on a
path). -/
def load_files_at (fs : FS) (p : Path) : Except String Bidict :=
  if fs.isDir p then .error "IsADirectoryError: open"
  else match fs.readFile p with
  | some (.jsonFile j) => DocumentInfo.load_files j
  | some (.blob _) => .error "JSONDecodeError"
  | none => .error "FileNotFoundError: open"

/-- `set.add`, determinized to first-insertion order. -/
def setAdd (l : List String) (x : String) : List String :=
  if x ∈ l then l else l ++ [x]

/-- The local state of `_handle_document`'s loops.  `lastFile` is the
Python loop variable `file`, which stays bound to the last iterated remote
file after the loop ends (BackupWorker.py line 130 reads it there). -/
structure HandleState where
  fs : FS
  document_info : DocumentInfo
  file_ids_remote : List String
  temporary_stored_files : List (String × String)
  lastFile : Option RemoteFile

/-- One iteration of the per-file loop (BackupWorker.py lines 83–117). -/
def handleOneFile (document_path_full : Path) (st : HandleState) (file : RemoteFile) :
    Except String HandleState := do
  let st := { st with file_ids_remote := setAdd st.file_ids_remote file.id,
                      lastFile := some file }
  let file_path_full := document_path_full ++ splitPath file.file_name
  if isRelativeTo file_path_full [".temp"] then
    pure st
  else
    let redirect := used_by_other_file st.document_info file.id file.file_name
    let st := if redirect then
        { st with temporary_stored_files :=
            bdSetKeep st.temporary_stored_files file.id file.file_name }
      else st
    let file_path_full := if redirect then
        document_path_full ++ splitPath (".temp/" ++ file.id)
      else file_path_full
    match bdGet? st.document_info.files file.id with
    | some previous_file_name =>
      if file.file_name ≠ previous_file_name then
        let previous_file_path_full := document_path_full ++ splitPath previous_file_name
        if st.fs.pathExists previous_file_path_full then do
          let fs ← st.fs.osRename previous_file_path_full file_path_full
          let files ← bdSet st.document_info.files file.id file.file_name
          let st := { st with fs := fs,
                              document_info := { st.document_info with files := files } }
          if (← file_needs_update st.fs file file_path_full) then do
            let (fs, _) ← download_file st.fs file file_path_full
            pure { st with fs := fs }
          else pure st
        else do
          let (fs, _) ← download_file st.fs file file_path_full
          pure { st with fs := fs }
      else
        if st.fs.pathExists file_path_full then do
          if (← file_needs_update st.fs file file_path_full) then do
            let (fs, _) ← download_file st.fs file file_path_full
            pure { st with fs := fs }
          else pure st
        else do
          let (fs, _) ← download_file st.fs file file_path_full
          pure { st with fs := fs }
    | none => do
      let (fs, _) ← download_file st.fs file file_path_full
      let files ← bdSet st.document_info.files file.id file.file_name
      pure { st with fs := fs, document_info := { st.document_info with files := files } }

/-- BackupWorker.py lines 119–127: delete local files whose id is no longer
remote. -/
def removeDeletedFiles (document_path_full : Path) (st0 : HandleState) :
    Except String HandleState := do
  let removed := (bdKeys st0.document_info.files).filter
    (fun i => ¬ st0.file_ids_remote.contains i)
  removed.foldlM (fun st file_id => do
    let (file_name, files) ← bdPop st.document_info.files file_id
    let st := { st with document_info := { st.document_info with files := files } }
    let file_path_full := document_path_full ++ splitPath file_name
    if st.fs.pathExists file_path_full then do
      let fs ← st.fs.unlink file_path_full
      pure { st with fs := fs }
    else pure st) st0

/-- BackupWorker.py lines 129–138: resolve same-document filename
collisions.  As in the source, the duplicate check on line 130 reads the
stale loop variable `file` (`file.id`), and line 137 renames from the
working-directory-relative path `.temp/{file_id}`. -/
def resolveTempFiles (document_path_full : Path) (st0 : HandleState) :
    Except String HandleState := do
  st0.temporary_stored_files.foldlM (fun st e => do
    let (file_id, file_name) := e
    let fileVar ← match st.lastFile with
      | some f => pure f
      | none => Except.error "NameError: file"
    if used_by_other_file st.document_info fileVar.id file_name then do
      let files ← bdDel st.document_info.files file_id
      pure { st with document_info := { st.document_info with files := files } }
    else do
      let file_path_full := document_path_full ++ splitPath file_name
      let fs ← st.fs.osRename (splitPath (".temp/" ++ file_id)) file_path_full
      let files ← bdSet st.document_info.files file_id file_name
      pure { st with fs := fs,
                     document_info := { st.document_info with files := files } }) st0

/-- `BackupWorker._handle_document` (BackupWorker.py lines 66–145). -/
def handle_document (backupLocation : Path) (fs : FS) (document : RemoteDoc)
    (document_path : String) : Except String FS := do
  let document_path_full := backupLocation ++ splitPath document_path
  let fs ← fs.mkdirParents document_path_full
  let document_info_path := document_path_full ++ ["info.json"]
  let document_info : DocumentInfo ←
    if fs.pathExists document_info_path then
      match load_files_at fs document_info_path with
      | .ok files => pure { document := document, files := files }
      | .error _ => pure { document := document, files := [] }
    else pure { document := document, files := [] }
  let st : HandleState := { fs := fs, document_info := document_info,
                            file_ids_remote := [], temporary_stored_files := [],
                            lastFile := none }
  let st ← document.files.foldlM (handleOneFile document_path_full) st
  let st ← removeDeletedFiles document_path_full st
  let st ← resolveTempFiles document_path_full st
  let temp_dir := document_path_full ++ [".temp"]
  let fs ← if st.fs.pathExists temp_dir then st.fs.rmtree temp_dir else pure st.fs
  fs.writeFile document_info_path (.jsonFile (encodeDocumentInfo st.document_info))

/-! ## Directory moves, removals and the orphan sweep -/

/-- `BackupWorker._remove_recursive_if_empty` (BackupWorker.py lines
147–152): delete `dir` and then its parents while they are empty, stopping
at the backup root.  The fuel only bounds the walk upwards; `dir.length +
1` always suffices since every step shortens the path. -/
def removeRecursiveIfEmpty (backupLocation : Path) : Nat → FS → Path → Except String FS
  | 0, _, _ => .error "OSError: rmdir"
  | fuel+1, fs, dir =>
    if dir = backupLocation then .ok fs
    else if dir = [] then
      (if fs.children [] = [] then .error "OSError: rmdir" else .ok fs)
    else if ¬ fs.isDir dir then .error "FileNotFoundError: iterdir"
    else if fs.children dir = [] then do
      let fs ← fs.rmdir dir
      removeRecursiveIfEmpty backupLocation fuel fs dir.dropLast
    else .ok fs

/-- `BackupWorker._move_document_dir` (BackupWorker.py lines 154–166). -/
def move_document_dir (backupLocation : Path) (fs : FS) (previous_dir new_dir : String)
    (remove_previous_dir_parent_if_empty : Bool) : Except String FS := do
  let previous_full_dir := backupLocation ++ splitPath previous_dir
  let new_full_dir := backupLocation ++ splitPath new_dir
  if ¬ fs.pathExists previous_full_dir then
    fs.mkdirParents new_full_dir
  else do
    let fs ← fs.mkdirParents new_full_dir.dropLast
    let fs ← fs.osRename previous_full_dir new_full_dir
    if remove_previous_dir_parent_if_empty then
      removeRecursiveIfEmpty backupLocation (previous_full_dir.dropLast.length + 1)
        fs previous_full_dir.dropLast
    else pure fs

/-- `BackupWorker._remove_document_dir` (BackupWorker.py lines 168–176). -/
def remove_document_dir (backupLocation : Path) (fs : FS) (dir : String) :
    Except String FS := do
  let full_dir := backupLocation ++ splitPath dir
  if ¬ fs.pathExists full_dir then pure fs
  else do
    let fs ← fs.rmtree full_dir
    removeRecursiveIfEmpty backupLocation (full_dir.dropLast.length + 1) fs full_dir.dropLast

/-- `str(path)` on a relative `pathlib.Path` built from segments. -/
def joinPath (p : Path) : String := pyJoin "/" p

/-- `BackupWorker._remove_unaccounted_files_in_document_dir`
(BackupWorker.py lines 178–194). -/
def remove_unaccounted_files_in_document_dir (fs : FS) (dir : Path) : Except String FS := do
  let document_info_path := dir ++ ["info.json"]
  if ¬ fs.pathExists document_info_path then fs.rmtree dir
  else do
    let document_files ← load_files_at fs document_info_path
    (fs.children dir).foldlM (fun fs' child =>
      let name := child.getLastD ""
      if name = "info.json" then pure fs'
      else if (bdValues document_files).contains name then pure fs'
      else if fs'.isDir child then fs'.rmtree child
      else fs'.unlink child) fs

/-- `BackupWorker._remove_unaccounted_files_in_non_document_dir`
(BackupWorker.py lines 196–212).  The fuel bounds the recursion depth;
`fs.dirs.length + 1` always suffices since each recursive call descends
into a distinct, strictly longer existing directory. -/
def remove_unaccounted_files_in_non_document_dir (backupLocation : Path) (binfo : BackupInfo) :
    Nat → FS → Path → Bool → Except String FS
  | 0, _, _, _ => .error "RecursionError"
  | fuel+1, fs, dir, ignore_info_file =>
    (fs.children dir).foldlM (fun fs' child =>
      let name := child.getLastD ""
      if ignore_info_file ∧ name = "info.json" then pure fs'
      else if ¬ fs'.isDir child then fs'.unlink child
      else
        let file_relative := child.drop backupLocation.length
        if (bdValues binfo.documents).contains (joinPath file_relative) then
          remove_unaccounted_files_in_document_dir fs' child
        else if contains_documents binfo file_relative then
          remove_unaccounted_files_in_non_document_dir backupLocation binfo fuel fs' child false
        else fs'.rmtree child) fs

/-- `BackupWorker._remove_unaccounted_files` (BackupWorker.py lines
214–217). -/
def remove_unaccounted_files (backupLocation : Path) (binfo : BackupInfo) (fs : FS) :
    Except String FS :=
  remove_unaccounted_files_in_non_document_dir backupLocation binfo
    (fs.dirs.length + 1) fs backupLocation true

/-! ## `BackupWorker.execute` -/

/-- The inputs of a run: the backup root, the remote snapshot (in the
iteration order the remote source yields), the configured pattern and the
clock value `datetime.utcnow()` returns at BackupWorker.py line 234. -/
structure Env where
  backup_location : Path
  docs : List RemoteDoc
  pattern : String
  now : Int

/-- `self.mendeley_session.documents.get(doc_id, view='all')`. -/
def getDoc (docs : List RemoteDoc) (id : String) : Except String RemoteDoc :=
  match docs.find? (fun d => d.id = id) with
  | some d => .ok d
  | none => .error "mendeley: document not found"

/-- `arrow.get` applied to the stored timestamp (raises on `None`). -/
def arrowGet : Option Int → Except String Int
  | some t => .ok t
  | none => .error "TypeError: arrow.get(None)"

/-- The outcome of the classification loop (BackupWorker.py lines
236–247). -/
structure Classified where
  history : ActionHist
  new_document_ids : List String
  modified_document_ids : List String
  unmodified_document_ids : List String

/-- One iteration of the classification loop (BackupWorker.py lines
239–247). -/
def classifyStep (binfo : BackupInfo) (cl : Classified) (doc : RemoteDoc) :
    Except String Classified := do
  if bdContains binfo.documents doc.id then
    let lbt ← arrowGet binfo.last_backup_time
    if doc.last_modified ≥ lbt then
      pure { cl with modified_document_ids := setAdd cl.modified_document_ids doc.id }
    else
      pure { cl with
        unmodified_document_ids := setAdd cl.unmodified_document_ids doc.id,
        history := addAction cl.history (Action.noneAction doc.id) }
  else pure { cl with new_document_ids := setAdd cl.new_document_ids doc.id }

/-- The classification loop (BackupWorker.py lines 236–247): each remote
document is declared new, modified or unmodified; unmodified documents
record a `None` action immediately. -/
def classifyDocs (binfo : BackupInfo) (docs : List RemoteDoc) : Except String Classified :=
  docs.foldlM (classifyStep binfo)
    { history := [], new_document_ids := [], modified_document_ids := [],
      unmodified_document_ids := [] }

/-- BackupWorker.py line 248: the stored ids that are neither modified nor
unmodified. -/
def removedIds (binfo : BackupInfo) (cl : Classified) : List String :=
  (bdKeys binfo.documents).filter (fun k =>
    ¬ (cl.modified_document_ids.contains k ∨ cl.unmodified_document_ids.contains k))

/-- The mutable state of `execute`'s document loops.  `lastDoc` is the
Python loop variable `doc`, still bound to the most recently fetched
document when the staging-resolution loop reads `doc.id` on lines 298 and
307. -/
structure RunState where
  fs : FS
  binfo : BackupInfo
  history : ActionHist
  temporary_stored_documents : List (String × String)
  lastDoc : Option RemoteDoc

/-- One iteration of the removed-documents loop (BackupWorker.py lines
250–253). -/
def processRemoved (backupLocation : Path) (st : RunState) (doc_id : String) :
    Except String RunState := do
  let (old_document_path, documents) ← bdPop st.binfo.documents doc_id
  let fs ← remove_document_dir backupLocation st.fs old_document_path
  let st := { st with fs := fs, binfo := ({ st.binfo with documents := documents }),
                      history := addAction st.history (.remove doc_id old_document_path) }
  pure st

/-- One iteration of the modified-documents loop (BackupWorker.py lines
256–280). -/
def processModified (env : Env) (st : RunState) (doc_id : String) :
    Except String RunState := do
  let doc ← getDoc env.docs doc_id
  let st := { st with lastDoc := some doc }
  let old_document_path ← match bdGet? st.binfo.documents doc.id with
    | some p => Except.ok p
    | none => Except.error "KeyError: documents"
  let document_path ← get_document_path st.binfo doc
  if old_document_path ≠ document_path then
    if isRelativeTo (splitPath document_path) [".temp"] then do
      let fs ← remove_document_dir env.backup_location st.fs old_document_path
      let history := addAction st.history (.remove doc_id old_document_path)
      let documents ← bdDel st.binfo.documents doc_id
      let st := { st with fs := fs, history := history,
                          binfo := ({ st.binfo with documents := documents }) }
      pure st
    else do
      let staged := used_by_other_document st.binfo doc.id document_path
      let st := if staged then
          { st with temporary_stored_documents :=
              bdSetKeep st.temporary_stored_documents doc_id document_path }
        else st
      let document_path := if staged then ".temp/" ++ doc_id else document_path
      let fs ← move_document_dir env.backup_location st.fs old_document_path document_path true
      let history := addAction st.history
        (mkMoveAndUpdateAction doc.id old_document_path document_path)
      let fs ← handle_document env.backup_location fs doc document_path
      let documents ← bdSet st.binfo.documents doc.id document_path
      let st := { st with fs := fs, history := history,
                          binfo := ({ st.binfo with documents := documents }) }
      pure st
  else do
    let history := addAction st.history (.update doc.id document_path)
    let fs ← handle_document env.backup_location st.fs doc document_path
    let documents ← bdSet st.binfo.documents doc.id document_path
    let st := { st with fs := fs, history := history,
                        binfo := ({ st.binfo with documents := documents }) }
    pure st

/-- One iteration of the new-documents loop (BackupWorker.py lines
282–295). -/
def processNew (env : Env) (st : RunState) (doc_id : String) :
    Except String RunState := do
  let doc ← getDoc env.docs doc_id
  let st := { st with lastDoc := some doc }
  let document_path ← get_document_path st.binfo doc
  if isRelativeTo (splitPath document_path) [".temp"] then pure st
  else do
    let staged := used_by_other_document st.binfo doc.id document_path
    let st := if staged then
        { st with temporary_stored_documents :=
            bdSetKeep st.temporary_stored_documents doc_id document_path }
      else st
    let document_path := if staged then ".temp/" ++ doc_id else document_path
    let history := addAction st.history (.add doc.id document_path)
    let fs ← handle_document env.backup_location st.fs doc document_path
    let documents ← bdSet st.binfo.documents doc.id document_path
    let st := { st with fs := fs, history := history,
                        binfo := ({ st.binfo with documents := documents }) }
    pure st

/-- One iteration of the staging-resolution loop (BackupWorker.py lines
297–307).  As in the source, the still-claimed test on line 298 and the
mapping update on line 307 use the stale `doc.id`, while the deletion,
move and action fix-up use the loop's own `doc_id`. -/
def resolveStaged (env : Env) (st : RunState) (entry : String × String) :
    Except String RunState := do
  let (doc_id, document_path) := entry
  let docVar ← match st.lastDoc with
    | some d => Except.ok d
    | none => Except.error "NameError: doc"
  if used_by_other_document st.binfo docVar.id document_path then do
    let history ← removeAction st.history doc_id
    let documents ← bdDel st.binfo.documents doc_id
    pure { st with history := history, binfo := ({ st.binfo with documents := documents }) }
  else do
    let fs ← move_document_dir env.backup_location st.fs (".temp/" ++ doc_id)
      document_path false
    let a ← getAction st.history doc_id
    let a2 ← a.setPath document_path
    let history := addAction st.history a2
    let documents ← bdSet st.binfo.documents docVar.id document_path
    let st := { st with fs := fs, history := history,
                        binfo := ({ st.binfo with documents := documents }) }
    pure st

/-- `BackupWorker.execute` (BackupWorker.py lines 219–322): the full run,
returning the persisted Backup State, the action history and the final
tree. -/
def execute (env : Env) (fs0 : FS) : Except String (BackupInfo × ActionHist × FS) := do
  let fs ← fs0.mkdirParents env.backup_location
  let backup_info_path := env.backup_location ++ ["info.json"]
  let binfo ←
    if fs.pathExists backup_info_path then
      if fs.isDir backup_info_path then Except.error "IsADirectoryError: open"
      else match fs.readFile backup_info_path with
      | some (.jsonFile j) => BackupInfo.load j
      | some (.blob _) => Except.error "JSONDecodeError"
      | none => Except.error "FileNotFoundError: open"
    else pure (BackupInfo.fresh env.pattern)
  let fs ← remove_unaccounted_files env.backup_location binfo fs
  let cl ← classifyDocs binfo env.docs
  let removed := removedIds binfo cl
  let st : RunState := { fs := fs, binfo := binfo, history := cl.history,
                         temporary_stored_documents := [], lastDoc := none }
  let st ← removed.foldlM (processRemoved env.backup_location) st
  let st ← cl.modified_document_ids.foldlM (processModified env) st
  let st ← cl.new_document_ids.foldlM (processNew env) st
  let st ← st.temporary_stored_documents.foldlM (resolveStaged env) st
  let temp_dir := env.backup_location ++ [".temp"]
  let fs ← if st.fs.pathExists temp_dir then st.fs.rmtree temp_dir else pure st.fs
  let binfo := { st.binfo with last_backup_time := some env.now }
  let fs ← fs.writeFile backup_info_path (.jsonFile (encodeBackupInfo binfo))
  pure (binfo, st.history, fs)

/-! ## Concrete scenarios used by the theorems below -/

def fsEmpty : FS := { dirs := [], files := [] }

/-- Two modified documents that render to the same path `T`: `Y` (stored at
`OldT`) collides with `A` (already at `T`) and is staged; `A` keeps its
path.  Iteration order is `Y` before `A`, so the stale loop variable `doc`
is `A` when the staging-resolution loop runs. -/
def docA : RemoteDoc :=
  { id := "A", title := "T", year := some 2024, authors := [], last_modified := 200, files := [] }

def docY : RemoteDoc :=
  { id := "Y", title := "T", year := some 2024, authors := [], last_modified := 200, files := [] }

def binfoC1 : BackupInfo :=
  { pattern := "%title", last_backup_time := some 100, documents := [("A", "T"), ("Y", "OldT")] }

def fsC1 : FS :=
  { dirs := [["backup"], ["backup", "T"], ["backup", "OldT"]],
    files := [(["backup", "info.json"], .jsonFile (encodeBackupInfo binfoC1)),
              (["backup", "T", "info.json"],
                .jsonFile (encodeDocumentInfo { document := docA, files := [] })),
              (["backup", "OldT", "info.json"],
                .jsonFile (encodeDocumentInfo { document := docY, files := [] }))] }

def envC1 : Env :=
  { backup_location := ["backup"], docs := [docY, docA], pattern := "%title", now := 300 }

/-- A single document with a configurable last-modified timestamp, for the
repeated-run scenarios. -/
def docZ (ts : Int) : RemoteDoc :=
  { id := "Z", title := "Z", year := some 2024, authors := [], last_modified := ts, files := [] }

def envZ (ts now : Int) : Env :=
  { backup_location := ["backup"], docs := [docZ ts], pattern := "%title", now := now }

/-- Two consecutive runs; the result is the second run's action history. -/
def secondRunHistory (env1 env2 : Env) (fs : FS) : Except String ActionHist := do
  let (_, _, fs1) ← execute env1 fs
  let (_, h2, _) ← execute env2 fs1
  pure h2

/-- A Backup State with nested document paths: document `A` at `x` and
document `B` at `x/y`, each directory holding its record file. -/
def docB : RemoteDoc :=
  { id := "B", title := "y", year := none, authors := [], last_modified := 0, files := [] }

def binfoNested : BackupInfo :=
  { pattern := "%title", last_backup_time := some 100, documents := [("A", "x"), ("B", "x/y")] }

def fsNested : FS :=
  { dirs := [["backup"], ["backup", "x"], ["backup", "x", "y"]],
    files := [(["backup", "info.json"], .jsonFile (encodeBackupInfo binfoNested)),
              (["backup", "x", "info.json"],
                .jsonFile (encodeDocumentInfo { document := docB, files := [] })),
              (["backup", "x", "y", "info.json"],
                .jsonFile (encodeDocumentInfo { document := docB, files := [] }))] }

/-- A download whose HTTP request raises before the output file is opened,
aimed at a path where no file exists yet. -/
def fileBeforeOpen : RemoteFile :=
  { id := "f1", file_name := "a.pdf", filehash := "h", fetch := .failBeforeOpen }

def fsC7 : FS := { dirs := [["backup"], ["backup", "doc"]], files := [] }

/-- A new document with one remote file whose filename points into the
per-document staging namespace. -/
def fileEvil : RemoteFile :=
  { id := "f1", file_name := ".temp/evil", filehash := "h", fetch := .success "h" }

def docW : RemoteDoc :=
  { id := "W", title := "W", year := none, authors := [], last_modified := 200,
    files := [fileEvil] }

def envW : Env :=
  { backup_location := ["backup"], docs := [docW], pattern := "%title", now := 300 }

/-- The Backup State persisted by a first run of `envZ 50 100` from the
empty tree: document `Z` stored at `Z`, timestamp 100. -/
def binfoZ1 : BackupInfo :=
  { pattern := "%title", last_backup_time := some 100, documents := [("Z", "Z")] }

/-- The tree left by that first run. -/
def fsZ1 : FS :=
  { dirs := [["backup"], ["backup", "Z"]],
    files := [(["backup", "Z", "info.json"],
                .jsonFile (encodeDocumentInfo { document := docZ 50, files := [] })),
              (["backup", "info.json"], .jsonFile (encodeBackupInfo binfoZ1))] }

/-! ## Theorems -/

lemma getD_map_escape (l : List Char) (i : Nat) :
    (l.map (fun c => if isEscapedChar c then '_' else c)).getD i 'a'
      = (if isEscapedChar (l.getD i 'a') then '_' else l.getD i 'a') := by
  induction l generalizing i with
  | nil => simp [List.getD, isEscapedChar]
  | cons x xs ih =>
    cases i with
    | zero => simp [List.getD]
    | succ n => simpa [List.getD] using ih n

/-- C4: `format_authors` maps an empty list to `"Unknown"`, a singleton to
its element, two or three elements to the comma-joined list with the final
element joined by `" & "`, and four or more elements to the first element
followed by `" et al."`. -/
theorem C4_format_authors (a b c d : String) (rest : List String) :
    format_authors [] = "Unknown" ∧
    format_authors [a] = a ∧
    format_authors [a, b] = a ++ " & " ++ b ∧
    format_authors [a, b, c] = a ++ ", " ++ b ++ " & " ++ c ∧
    format_authors (a :: b :: c :: d :: rest) = a ++ " et al." := by
  refine ⟨rfl, rfl, rfl, rfl, ?_⟩
  unfold format_authors
  rw [if_neg (by simp only [List.length_cons]; omega),
      if_neg (by simp only [List.length_cons]; omega),
      if_neg (by simp only [List.length_cons]; omega)]
  rfl

/-- C5 counterexample: the sanitiser leaves a backslash unchanged, so the
claim that every reserved character, the backslash included, is replaced
with `_` fails on the input `"a\b"`. -/
theorem C5_counterexample :
    replace_invalid_characters "a\\b" = "a\\b" ∧ "a\\b" ≠ "a_b" :=
  ⟨rfl, by decide⟩

/-- C5 (amended): `replace_invalid_characters` is a pure character-wise
map that replaces every occurrence of each of the eight characters
`/ : * ? " < > |` with `_` and leaves every other character — the
backslash among them — unchanged. -/
theorem C5_replace_invalid_characters (s : String) :
    (replace_invalid_characters s).data.length = s.data.length ∧
    ∀ i : Nat, (replace_invalid_characters s).data.getD i 'a'
      = (if isEscapedChar (s.data.getD i 'a') then '_' else s.data.getD i 'a') := by
  refine ⟨by simp [replace_invalid_characters], fun i => ?_⟩
  simpa [replace_invalid_characters] using getD_map_escape s.data i

/-- C7: a download whose request fails before the output file was created
does not return `False`; the `unlink` inside the exception handler raises
`FileNotFoundError` itself, so `_download_file` propagates an exception. -/
theorem C7_download_failure_crash :
    download_file fsC7 fileBeforeOpen ["backup", "doc", "a.pdf"]
      = .error "FileNotFoundError: unlink in download except-handler" := rfl

/-- C8: `MoveAndUpdateAction.__init__` stores the `path` argument into both
attributes; the constructed action's `old_path` is the *new* path, not the
previous one. -/
theorem C8_move_and_update_old_path :
    mkMoveAndUpdateAction "doc1" "Doe/2023 - Old" "Doe/2024 - New"
        = Action.moveAndUpdate "doc1" "Doe/2024 - New" "Doe/2024 - New" ∧
      ("Doe/2024 - New" : String) ≠ "Doe/2023 - Old" :=
  ⟨rfl, by decide⟩

/-- C9: the reserved-namespace test of `_handle_document` compares the
*full* path (which starts with the backup root) against the relative path
`.temp`, so it never fires for a file named `.temp/evil`; instead of
logging an error and skipping the file, the run tries to download into the
nonexistent staging directory and aborts with an exception. -/
theorem C9_temp_file_not_rejected :
    isRelativeTo (["backup", "W"] ++ splitPath ".temp/evil") [".temp"] = false ∧
    execute envW fsEmpty = .error "FileNotFoundError: unlink in download except-handler" :=
  ⟨rfl, rfl⟩

/-- C1: when the staged document `Y`'s target `T` is still claimed by the
stale loop variable's document `A`, the resolution loop's `doc.id` test
(line 298) wrongly reports the path as free, so instead of dropping `Y`
with a warning the code renames `Y`'s staging slot onto `A`'s populated
directory and the whole run aborts with an `os.rename` error. -/
theorem C1_staging_resolution_crash :
    execute envC1 fsC1 = .error "ENOTEMPTY: rename" := rfl

/-! ### Round-trip lemmas for the persisted stores (C6) -/

lemma bdGet?_eq_none (bd : Bidict) (k : String) (h : k ∉ bd.map Prod.fst) :
    bdGet? bd k = none := by
  unfold bdGet?
  rw [List.find?_eq_none.mpr]
  · rfl
  · intro e he
    simp only [decide_eq_true_eq]
    intro hk
    exact h (hk ▸ List.mem_map_of_mem Prod.fst he)

lemma bdInv?_eq_none (bd : Bidict) (v : String) (h : v ∉ bd.map Prod.snd) :
    bdInv? bd v = none := by
  unfold bdInv?
  rw [List.find?_eq_none.mpr]
  · rfl
  · intro e he
    simp only [decide_eq_true_eq]
    intro hv
    exact h (hv ▸ List.mem_map_of_mem Prod.snd he)

lemma bdSet_append (bd : Bidict) (k v : String) (hk : k ∉ bd.map Prod.fst)
    (hv : v ∉ bd.map Prod.snd) : bdSet bd k v = .ok (bd ++ [(k, v)]) := by
  unfold bdSet
  rw [bdInv?_eq_none bd v hv]
  unfold bdSetKeep bdContains
  rw [bdGet?_eq_none bd k hk]
  rfl

lemma bdOfList_go (l acc : Bidict) (h : bdWF (acc ++ l)) :
    l.foldlM (fun bd e => bdSet bd e.1 e.2) acc = .ok (acc ++ l) := by
  induction l generalizing acc with
  | nil => simp [pure, Except.pure]
  | cons e rest ih =>
    have hk : e.1 ∉ acc.map Prod.fst := by
      intro hmem
      have hks := h.1
      rw [List.map_append, List.nodup_append] at hks
      exact hks.2.2 hmem (by simp)
    have hv : e.2 ∉ acc.map Prod.snd := by
      intro hmem
      have hvs := h.2
      rw [List.map_append, List.nodup_append] at hvs
      exact hvs.2.2 hmem (by simp)
    rw [List.foldlM_cons, bdSet_append acc e.1 e.2 hk hv]
    show rest.foldlM (fun bd e => bdSet bd e.1 e.2) (acc ++ [e]) = _
    rw [ih (acc ++ [e]) (by simpa using h)]
    simp

lemma bdOfList_wf (l : Bidict) (h : bdWF l) : bdOfList l = .ok l := by
  simpa using bdOfList_go l [] (by simpa using h)

lemma parseStrMap_encode (l : Bidict) :
    parseStrMap (Json.obj (l.map (fun e => (e.1, Json.str e.2)))) = .ok l := by
  unfold parseStrMap
  induction l with
  | nil => rfl
  | cons e rest ih =>
    simp only [List.map_cons, List.mapM_cons, parseJsonStr, bind, Except.bind, pure,
      Except.pure] at *
    rw [ih]

lemma load_encode_backupInfo (pat : String) (t : Int) (docs : Bidict) (h : bdWF docs) :
    BackupInfo.load (encodeBackupInfo ⟨pat, some t, docs⟩) = .ok ⟨pat, some t, docs⟩ := by
  have h1 : jsonLookup (encodeBackupInfo ⟨pat, some t, docs⟩) "pattern"
      = .ok (Json.str pat) := rfl
  have h2 : jsonLookup (encodeBackupInfo ⟨pat, some t, docs⟩) "last_backup_time"
      = .ok (Json.isoDatetime t) := rfl
  have h3 : jsonLookup (encodeBackupInfo ⟨pat, some t, docs⟩) "documents"
      = .ok (Json.obj (docs.map (fun e => (e.1, Json.str e.2)))) := rfl
  unfold BackupInfo.load
  rw [h1, h2, h3]
  simp only [parseJsonStr, parseDatetime, bind, Except.bind, parseStrMap_encode,
    bdOfList_wf docs h, pure, Except.pure]

lemma load_files_encode (di : DocumentInfo) (h : bdWF di.files) :
    DocumentInfo.load_files (encodeDocumentInfo di) = .ok di.files := by
  have h1 : jsonLookup (encodeDocumentInfo di) "files"
      = .ok (Json.obj (di.files.map (fun e => (e.1, Json.str e.2)))) := rfl
  unfold DocumentInfo.load_files
  rw [h1]
  simp only [bind, Except.bind, parseStrMap_encode, bdOfList_wf di.files h]

/-- C6: saving a Backup State that a run can persist (its timestamp is
set, its mapping satisfies the bidict invariant) and loading it back
reproduces the same pattern, timestamp and document mapping; saving a
Document Record and reading it back with `load_files` reproduces the same
file mapping. -/
theorem C6_round_trip (b : BackupInfo) (t : Int) (hb : b.last_backup_time = some t)
    (hwf : bdWF b.documents) (di : DocumentInfo) (hdf : bdWF di.files) :
    BackupInfo.load (encodeBackupInfo b) = .ok b ∧
    DocumentInfo.load_files (encodeDocumentInfo di) = .ok di.files := by
  refine ⟨?_, load_files_encode di hdf⟩
  obtain ⟨pat, lbt, docs⟩ := b
  simp only at hb hwf
  subst hb
  exact load_encode_backupInfo pat t docs hwf

/-! ### Classification lemmas (C3) -/

lemma mem_setAdd (l : List String) (x k : String) :
    k ∈ setAdd l x ↔ k ∈ l ∨ k = x := by
  unfold setAdd
  by_cases h : x ∈ l
  · rw [if_pos h]
    constructor
    · exact Or.inl
    · rintro (hk | rfl)
      · exact hk
      · exact h
  · rw [if_neg h]
    simp

lemma bdContains_iff_mem_keys (bd : Bidict) (k : String) :
    bdContains bd k = true ↔ k ∈ bdKeys bd := by
  unfold bdContains bdGet? bdKeys
  rw [Option.isSome_map']
  rw [List.find?_isSome]
  constructor
  · rintro ⟨e, he, hk⟩
    simp only [decide_eq_true_eq] at hk
    exact hk ▸ List.mem_map_of_mem Prod.fst he
  · intro h
    obtain ⟨e, he, hk⟩ := List.mem_map.mp h
    exact ⟨e, he, by simp [hk]⟩

lemma addAction_noneAction (unmod : List String) (k : String) :
    addAction (unmod.map (fun j => (j, Action.noneAction j))) (Action.noneAction k)
      = (setAdd unmod k).map (fun j => (j, Action.noneAction j)) := by
  unfold addAction setAdd
  have hany : ((unmod.map (fun j => (j, Action.noneAction j))).any
      (fun e => e.1 = (Action.noneAction k).document_id)) = decide (k ∈ unmod) := by
    show (unmod.map (fun j => (j, Action.noneAction j))).any (fun e => decide (e.1 = k))
      = decide (k ∈ unmod)
    induction unmod with
    | nil => rfl
    | cons j rest ih =>
      simp only [List.map_cons, List.any_cons, ih, List.mem_cons]
      by_cases hj : j = k
      · subst hj; simp
      · simp [hj, Ne.symm hj]
  rw [hany]
  by_cases h : k ∈ unmod
  · rw [if_pos (by simpa using h), if_pos h, List.map_map]
    apply List.map_congr_left
    intro j _
    by_cases hj : j = k
    · subst hj
      simp [Function.comp, Action.document_id]
    · simp [Function.comp, Action.document_id, hj]
  · rw [if_neg (by simpa using h), if_neg h, List.map_append]
    rfl

lemma classifyStep_known_modified (binfo : BackupInfo) (T : Int)
    (hT : binfo.last_backup_time = some T) (cl : Classified) (doc : RemoteDoc)
    (hk : bdContains binfo.documents doc.id = true) (hm : T ≤ doc.last_modified) :
    classifyStep binfo cl doc
      = .ok { cl with modified_document_ids := setAdd cl.modified_document_ids doc.id } := by
  unfold classifyStep
  rw [hT]
  simp only [hk, if_true, arrowGet, bind, Except.bind, ge_iff_le, hm, if_pos, pure, Except.pure]

lemma classifyStep_known_unmodified (binfo : BackupInfo) (T : Int)
    (hT : binfo.last_backup_time = some T) (cl : Classified) (doc : RemoteDoc)
    (hk : bdContains binfo.documents doc.id = true) (hm : doc.last_modified < T) :
    classifyStep binfo cl doc
      = .ok { cl with
          unmodified_document_ids := setAdd cl.unmodified_document_ids doc.id,
          history := addAction cl.history (Action.noneAction doc.id) } := by
  unfold classifyStep
  rw [hT]
  simp only [hk, if_true, arrowGet, bind, Except.bind, ge_iff_le, not_le.mpr hm, if_neg,
    pure, Except.pure, not_false_eq_true]

lemma classifyStep_new (binfo : BackupInfo) (cl : Classified) (doc : RemoteDoc)
    (hk : bdContains binfo.documents doc.id = false) :
    classifyStep binfo cl doc
      = .ok { cl with new_document_ids := setAdd cl.new_document_ids doc.id } := by
  unfold classifyStep
  simp only [hk, Bool.false_eq_true, if_false, pure, Except.pure]

lemma or_iff_or_of_not (A Q R : Prop) (h : ¬ Q) : (A ∨ R) ↔ (A ∨ (Q ∨ R)) := by
  constructor
  · rintro (ha | hr)
    · exact Or.inl ha
    · exact Or.inr (Or.inr hr)
  · rintro (ha | hq | hr)
    · exact Or.inl ha
    · exact absurd hq h
    · exact Or.inr hr

lemma classifyDocs_go (binfo : BackupInfo) (T : Int)
    (hT : binfo.last_backup_time = some T) (docs : List RemoteDoc) :
    ∀ cl0 : Classified,
      cl0.history = cl0.unmodified_document_ids.map (fun k => (k, Action.noneAction k)) →
      ∃ cl, docs.foldlM (classifyStep binfo) cl0 = .ok cl
        ∧ cl.history = cl.unmodified_document_ids.map (fun k => (k, Action.noneAction k))
        ∧ (∀ k, k ∈ cl.modified_document_ids ↔ k ∈ cl0.modified_document_ids ∨
            ∃ d ∈ docs, d.id = k ∧ bdContains binfo.documents k = true ∧ T ≤ d.last_modified)
        ∧ (∀ k, k ∈ cl.unmodified_document_ids ↔ k ∈ cl0.unmodified_document_ids ∨
            ∃ d ∈ docs, d.id = k ∧ bdContains binfo.documents k = true ∧ d.last_modified < T)
        ∧ (∀ k, k ∈ cl.new_document_ids ↔ k ∈ cl0.new_document_ids ∨
            ∃ d ∈ docs, d.id = k ∧ bdContains binfo.documents k = false) := by
  induction docs with
  | nil =>
    intro cl0 h0
    exact ⟨cl0, by simp [pure, Except.pure], h0, by simp, by simp, by simp⟩
  | cons doc rest ih =>
    intro cl0 h0
    rw [List.foldlM_cons]
    by_cases hk : bdContains binfo.documents doc.id = true
    · by_cases hm : T ≤ doc.last_modified
      · rw [classifyStep_known_modified binfo T hT cl0 doc hk hm]
        obtain ⟨cl, hfold, hh, h1, h2, h3⟩ := ih
          { cl0 with modified_document_ids := setAdd cl0.modified_document_ids doc.id } h0
        refine ⟨cl, by simpa [bind, Except.bind] using hfold, hh,
          fun k => ?_, fun k => ?_, fun k => ?_⟩
        · have hdq : (k = doc.id) ↔ (doc.id = k ∧ bdContains binfo.documents k = true
              ∧ T ≤ doc.last_modified) := by
            constructor
            · rintro rfl
              exact ⟨rfl, hk, hm⟩
            · rintro ⟨rfl, -, -⟩
              rfl
          rw [h1 k, List.exists_mem_cons_iff]
          show k ∈ setAdd cl0.modified_document_ids doc.id ∨ _ ↔ _
          rw [mem_setAdd, hdq]
          exact or_assoc
        · have hdq : ¬ (doc.id = k ∧ bdContains binfo.documents k = true
              ∧ doc.last_modified < T) := by
            rintro ⟨-, -, hlt⟩
            exact absurd hlt (not_lt.mpr hm)
          rw [h2 k, List.exists_mem_cons_iff]
          exact or_iff_or_of_not _ _ _ hdq
        · have hdq : ¬ (doc.id = k ∧ bdContains binfo.documents k = false) := by
            rintro ⟨rfl, hfalse⟩
            rw [hk] at hfalse
            cases hfalse
          rw [h3 k, List.exists_mem_cons_iff]
          exact or_iff_or_of_not _ _ _ hdq
      · have hm2 : doc.last_modified < T := not_le.mp hm
        rw [classifyStep_known_unmodified binfo T hT cl0 doc hk hm2]
        have h02 : (addAction cl0.history (Action.noneAction doc.id))
            = (setAdd cl0.unmodified_document_ids doc.id).map
                (fun k => (k, Action.noneAction k)) := by
          rw [h0, addAction_noneAction]
        obtain ⟨cl, hfold, hh, h1, h2, h3⟩ := ih
          { cl0 with
            unmodified_document_ids := setAdd cl0.unmodified_document_ids doc.id,
            history := addAction cl0.history (Action.noneAction doc.id) }
          (by simpa using h02)
        refine ⟨cl, by simpa [bind, Except.bind] using hfold, hh,
          fun k => ?_, fun k => ?_, fun k => ?_⟩
        · have hdq : ¬ (doc.id = k ∧ bdContains binfo.documents k = true
              ∧ T ≤ doc.last_modified) := by
            rintro ⟨-, -, hle⟩
            exact absurd hle hm
          rw [h1 k, List.exists_mem_cons_iff]
          exact or_iff_or_of_not _ _ _ hdq
        · have hdq : (k = doc.id) ↔ (doc.id = k ∧ bdContains binfo.documents k = true
              ∧ doc.last_modified < T) := by
            constructor
            · rintro rfl
              exact ⟨rfl, hk, hm2⟩
            · rintro ⟨rfl, -, -⟩
              rfl
          rw [h2 k, List.exists_mem_cons_iff]
          show k ∈ setAdd cl0.unmodified_document_ids doc.id ∨ _ ↔ _
          rw [mem_setAdd, hdq]
          exact or_assoc
        · have hdq : ¬ (doc.id = k ∧ bdContains binfo.documents k = false) := by
            rintro ⟨rfl, hfalse⟩
            rw [hk] at hfalse
            cases hfalse
          rw [h3 k, List.exists_mem_cons_iff]
          exact or_iff_or_of_not _ _ _ hdq
    · have hk2 : bdContains binfo.documents doc.id = false := by
        simpa using hk
      rw [classifyStep_new binfo cl0 doc hk2]
      obtain ⟨cl, hfold, hh, h1, h2, h3⟩ := ih
        { cl0 with new_document_ids := setAdd cl0.new_document_ids doc.id } h0
      refine ⟨cl, by simpa [bind, Except.bind] using hfold, hh,
        fun k => ?_, fun k => ?_, fun k => ?_⟩
      · have hdq : ¬ (doc.id = k ∧ bdContains binfo.documents k = true
            ∧ T ≤ doc.last_modified) := by
          rintro ⟨rfl, htrue, -⟩
          rw [hk2] at htrue
          cases htrue
        rw [h1 k, List.exists_mem_cons_iff]
        exact or_iff_or_of_not _ _ _ hdq
      · have hdq : ¬ (doc.id = k ∧ bdContains binfo.documents k = true
            ∧ doc.last_modified < T) := by
          rintro ⟨rfl, htrue, -⟩
          rw [hk2] at htrue
          cases htrue
        rw [h2 k, List.exists_mem_cons_iff]
        exact or_iff_or_of_not _ _ _ hdq
      · have hdq : (k = doc.id) ↔ (doc.id = k ∧ bdContains binfo.documents k = false) := by
          constructor
          · rintro rfl
            exact ⟨rfl, hk2⟩
          · rintro ⟨rfl, -⟩
            rfl
        rw [h3 k, List.exists_mem_cons_iff]
        show k ∈ setAdd cl0.new_document_ids doc.id ∨ _ ↔ _
        rw [mem_setAdd, hdq]
        exact or_assoc

/-- C3: with a stored timestamp `T`, classification sends every known
remote document with `last_modified ≥ T` to the modified class, every
known one with `last_modified < T` to the unmodified class (recording
exactly the `None` actions), every unknown remote document to the new
class and every stored id absent from the remote set to the removed
class; the four classes cover the union of remote and stored ids and are
pairwise disjoint. -/
theorem C3_classification (binfo : BackupInfo) (docs : List RemoteDoc) (T : Int)
    (hT : binfo.last_backup_time = some T)
    (hids : (docs.map RemoteDoc.id).Nodup) :
    ∃ cl, classifyDocs binfo docs = .ok cl
      ∧ (∀ d ∈ docs, bdContains binfo.documents d.id = true →
           (T ≤ d.last_modified → d.id ∈ cl.modified_document_ids)
           ∧ (d.last_modified < T → d.id ∈ cl.unmodified_document_ids
               ∧ (d.id, Action.noneAction d.id) ∈ cl.history))
      ∧ (∀ d ∈ docs, bdContains binfo.documents d.id = false →
           d.id ∈ cl.new_document_ids)
      ∧ cl.history = cl.unmodified_document_ids.map (fun k => (k, Action.noneAction k))
      ∧ (∀ k, k ∈ removedIds binfo cl
           ↔ (k ∈ bdKeys binfo.documents ∧ k ∉ docs.map RemoteDoc.id))
      ∧ (∀ k, (k ∈ docs.map RemoteDoc.id ∨ k ∈ bdKeys binfo.documents) →
           (k ∈ cl.new_document_ids ∨ k ∈ cl.modified_document_ids
             ∨ k ∈ cl.unmodified_document_ids ∨ k ∈ removedIds binfo cl))
      ∧ (∀ k, ¬ (k ∈ cl.new_document_ids ∧ k ∈ cl.modified_document_ids))
      ∧ (∀ k, ¬ (k ∈ cl.new_document_ids ∧ k ∈ cl.unmodified_document_ids))
      ∧ (∀ k, ¬ (k ∈ cl.new_document_ids ∧ k ∈ removedIds binfo cl))
      ∧ (∀ k, ¬ (k ∈ cl.modified_document_ids ∧ k ∈ cl.unmodified_document_ids))
      ∧ (∀ k, ¬ (k ∈ cl.modified_document_ids ∧ k ∈ removedIds binfo cl))
      ∧ (∀ k, ¬ (k ∈ cl.unmodified_document_ids ∧ k ∈ removedIds binfo cl)) := by
  obtain ⟨cl, hfold, hh, h1, h2, h3⟩ :=
    classifyDocs_go binfo T hT docs
      { history := [], new_document_ids := [], modified_document_ids := [],
        unmodified_document_ids := [] } rfl
  have h1' : ∀ k, k ∈ cl.modified_document_ids
      ↔ ∃ d ∈ docs, d.id = k ∧ bdContains binfo.documents k = true
          ∧ T ≤ d.last_modified := by
    intro k
    rw [h1 k]
    simp only [List.not_mem_nil, false_or]
  have h2' : ∀ k, k ∈ cl.unmodified_document_ids
      ↔ ∃ d ∈ docs, d.id = k ∧ bdContains binfo.documents k = true
          ∧ d.last_modified < T := by
    intro k
    rw [h2 k]
    simp only [List.not_mem_nil, false_or]
  have h3' : ∀ k, k ∈ cl.new_document_ids
      ↔ ∃ d ∈ docs, d.id = k ∧ bdContains binfo.documents k = false := by
    intro k
    rw [h3 k]
    simp only [List.not_mem_nil, false_or]
  have hinj : ∀ d1 ∈ docs, ∀ d2 ∈ docs, d1.id = d2.id → d1 = d2 :=
    List.inj_on_of_nodup_map hids
  have hrem : ∀ k, k ∈ removedIds binfo cl
      ↔ (k ∈ bdKeys binfo.documents
          ∧ ¬ (k ∈ cl.modified_document_ids ∨ k ∈ cl.unmodified_document_ids)) := by
    intro k
    unfold removedIds
    rw [List.mem_filter]
    simp [List.elem_iff]
  refine ⟨cl, hfold, ?_, ?_, hh, ?_, ?_, ?_, ?_, ?_, ?_, ?_, ?_⟩
  · intro d hd hk
    refine ⟨fun hm => (h1' d.id).mpr ⟨d, hd, rfl, hk, hm⟩, fun hm => ?_⟩
    have hu : d.id ∈ cl.unmodified_document_ids := (h2' d.id).mpr ⟨d, hd, rfl, hk, hm⟩
    exact ⟨hu, hh ▸ List.mem_map_of_mem _ hu⟩
  · intro d hd hk
    exact (h3' d.id).mpr ⟨d, hd, rfl, hk⟩
  · intro k
    rw [hrem k]
    constructor
    · rintro ⟨hkeys, hnot⟩
      refine ⟨hkeys, fun hmem => hnot ?_⟩
      obtain ⟨d, hd, rfl⟩ := List.mem_map.mp hmem
      have hk : bdContains binfo.documents d.id = true :=
        (bdContains_iff_mem_keys _ _).mpr hkeys
      rcases le_or_lt T d.last_modified with hm | hm
      · exact Or.inl ((h1' d.id).mpr ⟨d, hd, rfl, hk, hm⟩)
      · exact Or.inr ((h2' d.id).mpr ⟨d, hd, rfl, hk, hm⟩)
    · rintro ⟨hkeys, hnot⟩
      refine ⟨hkeys, ?_⟩
      rintro (hmem | hmem)
      · obtain ⟨d, hd, rfl, -, -⟩ := (h1' k).mp hmem
        exact hnot (List.mem_map_of_mem _ hd)
      · obtain ⟨d, hd, rfl, -, -⟩ := (h2' k).mp hmem
        exact hnot (List.mem_map_of_mem _ hd)
  · intro k hk
    rcases hk with hk | hk
    · obtain ⟨d, hd, rfl⟩ := List.mem_map.mp hk
      cases hcont : bdContains binfo.documents d.id with
      | false => exact Or.inl ((h3' d.id).mpr ⟨d, hd, rfl, hcont⟩)
      | true =>
        rcases le_or_lt T d.last_modified with hm | hm
        · exact Or.inr (Or.inl ((h1' d.id).mpr ⟨d, hd, rfl, hcont, hm⟩))
        · exact Or.inr (Or.inr (Or.inl ((h2' d.id).mpr ⟨d, hd, rfl, hcont, hm⟩)))
    · by_cases hmem : k ∈ cl.modified_document_ids ∨ k ∈ cl.unmodified_document_ids
      · rcases hmem with hmem | hmem
        · exact Or.inr (Or.inl hmem)
        · exact Or.inr (Or.inr (Or.inl hmem))
      · exact Or.inr (Or.inr (Or.inr ((hrem k).mpr ⟨hk, hmem⟩)))
  · rintro k ⟨hn, hmod⟩
    obtain ⟨d1, -, rfl, hfalse⟩ := (h3' k).mp hn
    obtain ⟨d2, -, -, htrue, -⟩ := (h1' d1.id).mp hmod
    rw [hfalse] at htrue
    cases htrue
  · rintro k ⟨hn, hu⟩
    obtain ⟨d1, -, rfl, hfalse⟩ := (h3' k).mp hn
    obtain ⟨d2, -, -, htrue, -⟩ := (h2' d1.id).mp hu
    rw [hfalse] at htrue
    cases htrue
  · rintro k ⟨hn, hr⟩
    obtain ⟨d1, -, rfl, hfalse⟩ := (h3' k).mp hn
    have htrue : bdContains binfo.documents d1.id = true :=
      (bdContains_iff_mem_keys _ _).mpr ((hrem d1.id).mp hr).1
    rw [hfalse] at htrue
    cases htrue
  · rintro k ⟨hm1, hm2⟩
    obtain ⟨d1, hd1, rfl, -, hle⟩ := (h1' k).mp hm1
    obtain ⟨d2, hd2, hid, -, hlt⟩ := (h2' d1.id).mp hm2
    have : d2 = d1 := hinj d2 hd2 d1 hd1 hid
    subst this
    exact absurd hle (not_le.mpr hlt)
  · rintro k ⟨hm1, hr⟩
    exact ((hrem k).mp hr).2 (Or.inl hm1)
  · rintro k ⟨hu, hr⟩
    exact ((hrem k).mp hr).2 (Or.inr hu)

/-- C3 witness. -/
theorem C3_classification_witness :
    binfoC1.last_backup_time = some 100 ∧ ([docY, docA].map RemoteDoc.id).Nodup ∧
    ∃ cl, classifyDocs binfoC1 [docY, docA] = .ok cl := by
  refine ⟨rfl, by decide, ?_⟩
  obtain ⟨cl, hfold, -⟩ := C3_classification binfoC1 [docY, docA] 100 rfl (by decide)
  exact ⟨cl, hfold⟩

/-- C6 witness. -/
theorem C6_round_trip_witness :
    binfoC1.last_backup_time = some 100 ∧ bdWF binfoC1.documents ∧
    bdWF ([("f1", "a.pdf")] : Bidict) ∧
    (BackupInfo.load (encodeBackupInfo binfoC1) = .ok binfoC1 ∧
     DocumentInfo.load_files
       (encodeDocumentInfo { document := docA, files := [("f1", "a.pdf")] })
       = .ok [("f1", "a.pdf")]) :=
  ⟨rfl, by decide, by decide,
    C6_round_trip binfoC1 100 rfl (by decide) { document := docA, files := [("f1", "a.pdf")] }
      (by decide)⟩

/-! ### Filesystem frame lemmas (for the orphan-sweep claims) -/

lemma foldlM_invariant {α σ : Type} (f : σ → α → Except String σ) (l : List α) (P : σ → Prop)
    (hstep : ∀ s a s', a ∈ l → P s → f s a = .ok s' → P s') :
    ∀ s0 s1, P s0 → l.foldlM f s0 = .ok s1 → P s1 := by
  induction l with
  | nil =>
    intro s0 s1 h0 hf
    simp only [List.foldlM_nil, pure, Except.pure, Except.ok.injEq] at hf
    exact hf ▸ h0
  | cons a rest ih =>
    intro s0 s1 h0 hf
    rw [List.foldlM_cons] at hf
    cases hstep0 : f s0 a with
    | error e =>
      rw [hstep0] at hf
      exact absurd hf (by simp [bind, Except.bind])
    | ok s' =>
      rw [hstep0] at hf
      simp only [bind, Except.bind] at hf
      exact ih (fun s a2 s2 ha2 => hstep s a2 s2 (List.mem_cons_of_mem _ ha2)) s' s1
        (hstep s0 a s' (List.mem_cons_self _ _) h0 hstep0) hf

lemma find?_filter_of_pred {β : Type} (l : List (Path × β)) (P : Path × β → Bool) (q : Path)
    (hq : ∀ e : Path × β, e.1 = q → P e = true) :
    (l.filter P).find? (fun e => e.1 = q) = l.find? (fun e => e.1 = q) := by
  induction l with
  | nil => rfl
  | cons e rest ih =>
    by_cases he : e.1 = q
    · rw [List.filter_cons, hq e he]
      simp [List.find?_cons, he]
    · cases hP : P e
      · simp [List.filter_cons, hP, List.find?_cons, he, ih]
      · simp [List.filter_cons, hP, List.find?_cons, he, ih]

lemma any_filter_of_pred {α : Type} (l : List α) (P p : α → Bool)
    (h : ∀ x, p x = true → P x = true) : (l.filter P).any p = l.any p := by
  induction l with
  | nil => rfl
  | cons e rest ih =>
    rw [List.filter_cons]
    by_cases hP : P e = true
    · rw [if_pos hP, List.any_cons, List.any_cons, ih]
    · rw [if_neg hP, List.any_cons, ih]
      have hpe : p e = false := by
        cases hpe : p e
        · rfl
        · exact absurd (h e hpe) hP
      rw [hpe]
      simp

lemma isFile_iff_readFile (fs : FS) (p : Path) :
    fs.isFile p = true ↔ (fs.readFile p).isSome = true := by
  unfold FS.isFile FS.readFile
  rw [Option.isSome_map', List.find?_isSome, List.any_eq_true]

lemma unlink_ok (fs : FS) (p : Path) (fs' : FS) (h : fs.unlink p = .ok fs') :
    fs' = { fs with files := fs.files.filter (fun e => e.1 ≠ p) } := by
  unfold FS.unlink at h
  by_cases hf : fs.isFile p = true
  · rw [if_pos hf] at h
    exact ((Except.ok.injEq _ _).mp h).symm
  · rw [if_neg hf] at h
    split at h <;> cases h

lemma unlink_frame (fs : FS) (p : Path) (fs' : FS) (h : fs.unlink p = .ok fs')
    (q : Path) (hq : ¬ p <+: q) :
    fs'.readFile q = fs.readFile q ∧ fs'.isDir q = fs.isDir q := by
  have hne : q ≠ p := fun hqe => hq (hqe ▸ List.prefix_refl q)
  rw [unlink_ok fs p fs' h]
  constructor
  · show ((fs.files.filter (fun e => e.1 ≠ p)).find? (fun e => e.1 = q)).map Prod.snd = _
    rw [find?_filter_of_pred _ _ q (fun e he => by simp [he, hne])]
    rfl
  · rfl

lemma rmtree_ok (fs : FS) (p : Path) (fs' : FS) (h : fs.rmtree p = .ok fs') :
    fs' = { dirs := fs.dirs.filter (fun q => ¬ p <+: q),
            files := fs.files.filter (fun e => ¬ p <+: e.1) } := by
  unfold FS.rmtree at h
  by_cases hd : fs.isDir p = true
  · rw [if_pos hd] at h
    exact ((Except.ok.injEq _ _).mp h).symm
  · rw [if_neg hd] at h
    cases h

lemma rmtree_frame (fs : FS) (p : Path) (fs' : FS) (h : fs.rmtree p = .ok fs')
    (q : Path) (hq : ¬ p <+: q) :
    fs'.readFile q = fs.readFile q ∧ fs'.isDir q = fs.isDir q := by
  rw [rmtree_ok fs p fs' h]
  constructor
  · show ((fs.files.filter (fun e => ¬ p <+: e.1)).find? (fun e => e.1 = q)).map Prod.snd = _
    rw [find?_filter_of_pred _ _ q (fun e he => by simp [he, hq])]
    rfl
  · show (fs.dirs.filter (fun r => ¬ p <+: r)).any (fun r => r = q) = fs.dirs.any (fun r => r = q)
    exact any_filter_of_pred _ _ _ (fun x hx => by
      simp only [decide_eq_true_eq] at hx
      simp [hx, hq])

lemma children_spec (fs : FS) (dir : Path) :
    ∀ c ∈ fs.children dir, c.dropLast = dir ∧ c ≠ [] := by
  intro c hc
  unfold FS.children at hc
  rcases List.mem_append.mp hc with hc | hc
  · exact (List.mem_filter.mp hc).2 |> fun h => by simpa using h
  · exact (List.mem_filter.mp hc).2 |> fun h => by simpa using h

lemma prefix_of_child (c dir : Path) (h1 : c.dropLast = dir) (h2 : c ≠ []) : dir <+: c := by
  rw [← h1]
  exact ⟨[c.getLast h2], List.dropLast_append_getLast h2⟩

lemma child_eq_of_prefix (c₁ c₂ dir : Path) (h1 : c₁.dropLast = dir) (hne1 : c₁ ≠ [])
    (h2 : c₂.dropLast = dir) (hne2 : c₂ ≠ []) (hp : c₁ <+: c₂) : c₁ = c₂ := by
  have hl1 : c₁.length = dir.length + 1 := by
    rw [← h1, List.length_dropLast]
    have := List.length_pos.mpr hne1
    omega
  have hl2 : c₂.length = dir.length + 1 := by
    rw [← h2, List.length_dropLast]
    have := List.length_pos.mpr hne2
    omega
  exact List.IsPrefix.eq_of_length hp (by omega)

lemma not_prefix_of_longer (c q : Path) (h : q.length < c.length) : ¬ c <+: q :=
  fun hp => absurd hp.length_le (by omega)

lemma child_not_prefix_parent (c dir : Path) (h1 : c.dropLast = dir) (hne : c ≠ []) :
    ¬ c <+: dir := by
  apply not_prefix_of_longer
  rw [← h1, List.length_dropLast]
  have := List.length_pos.mpr hne
  omega

lemma docSweep_frame (fs : FS) (c : Path) (fs' : FS)
    (hok : remove_unaccounted_files_in_document_dir fs c = .ok fs')
    (q : Path) (hq : ¬ c <+: q) :
    fs'.readFile q = fs.readFile q ∧ fs'.isDir q = fs.isDir q := by
  unfold remove_unaccounted_files_in_document_dir at hok
  by_cases hex : fs.pathExists (c ++ ["info.json"]) = true
  · rw [if_neg (by simpa using hex)] at hok
    cases hload : load_files_at fs (c ++ ["info.json"]) with
    | error e =>
      rw [hload] at hok
      exact absurd hok (by simp [bind, Except.bind])
    | ok document_files =>
      rw [hload] at hok
      simp only [bind, Except.bind] at hok
      refine foldlM_invariant _ (fs.children c)
        (fun s => s.readFile q = fs.readFile q ∧ s.isDir q = fs.isDir q)
        ?_ fs fs' ⟨rfl, rfl⟩ hok
      intro s a s' ha hP hstep
      obtain ⟨hdl, hne⟩ := children_spec fs c a ha
      have hnq : ¬ a <+: q := fun hp =>
        hq ((prefix_of_child a c hdl hne).trans hp)
      by_cases h1 : a.getLastD "" = "info.json"
      · rw [if_pos h1] at hstep
        cases hstep
        exact hP
      · rw [if_neg h1] at hstep
        by_cases h2 : (bdValues document_files).contains (a.getLastD "") = true
        · rw [if_pos h2] at hstep
          cases hstep
          exact hP
        · rw [if_neg h2] at hstep
          by_cases h3 : s.isDir a = true
          · rw [if_pos h3] at hstep
            obtain ⟨hr, hd⟩ := rmtree_frame s a s' hstep q hnq
            exact ⟨hr.trans hP.1, hd.trans hP.2⟩
          · rw [if_neg h3] at hstep
            obtain ⟨hr, hd⟩ := unlink_frame s a s' hstep q hnq
            exact ⟨hr.trans hP.1, hd.trans hP.2⟩
  · rw [if_pos (by simpa using hex)] at hok
    exact rmtree_frame fs c fs' hok q hq

lemma docSweep_record (fs : FS) (c : Path) (fs' : FS)
    (hok : remove_unaccounted_files_in_document_dir fs c = .ok fs')
    (hfile : fs.isFile (c ++ ["info.json"]) = true) :
    fs'.readFile (c ++ ["info.json"]) = fs.readFile (c ++ ["info.json"])
      ∧ fs'.isDir c = fs.isDir c := by
  unfold remove_unaccounted_files_in_document_dir at hok
  have hex : fs.pathExists (c ++ ["info.json"]) = true := by
    unfold FS.pathExists
    rw [hfile]
    simp
  rw [if_neg (by simpa using hex)] at hok
  cases hload : load_files_at fs (c ++ ["info.json"]) with
  | error e =>
    rw [hload] at hok
    exact absurd hok (by simp [bind, Except.bind])
  | ok document_files =>
    rw [hload] at hok
    simp only [bind, Except.bind] at hok
    refine foldlM_invariant _ (fs.children c)
      (fun s => s.readFile (c ++ ["info.json"]) = fs.readFile (c ++ ["info.json"])
        ∧ s.isDir c = fs.isDir c)
      ?_ fs fs' ⟨rfl, rfl⟩ hok
    intro s a s' ha hP hstep
    obtain ⟨hdl, hne⟩ := children_spec fs c a ha
    by_cases h1 : a.getLastD "" = "info.json"
    · rw [if_pos h1] at hstep
      cases hstep
      exact hP
    · have hanr : a ≠ c ++ ["info.json"] := by
        intro heq
        apply h1
        rw [heq]
        simp
      have hnr : ¬ a <+: c ++ ["info.json"] := fun hp =>
        hanr ( child_eq_of_prefix a (c ++ ["info.json"]) c hdl hne (by simp) (by simp) hp)
      have hnc : ¬ a <+: c := child_not_prefix_parent a c hdl hne
      rw [if_neg h1] at hstep
      by_cases h2 : (bdValues document_files).contains (a.getLastD "") = true
      · rw [if_pos h2] at hstep
        cases hstep
        exact hP
      · rw [if_neg h2] at hstep
        by_cases h3 : s.isDir a = true
        · rw [if_pos h3] at hstep
          obtain ⟨hr, -⟩ := rmtree_frame s a s' hstep (c ++ ["info.json"]) hnr
          obtain ⟨-, hd⟩ := rmtree_frame s a s' hstep c hnc
          exact ⟨hr.trans hP.1, hd.trans hP.2⟩
        · rw [if_neg h3] at hstep
          obtain ⟨hr, -⟩ := unlink_frame s a s' hstep (c ++ ["info.json"]) hnr
          obtain ⟨-, hd⟩ := unlink_frame s a s' hstep c hnc
          exact ⟨hr.trans hP.1, hd.trans hP.2⟩

lemma chain_child_eq (bl sp : Path) (m j : Nat) (a : Path)
    (hdl : a.dropLast = bl ++ sp.take m) (hne : a ≠ [])
    (hmn : m < sp.length) (hj : m < j) (hjn : j ≤ sp.length)
    (hp : a <+: bl ++ sp.take j) : a = bl ++ sp.take (m+1) := by
  have hpos := List.length_pos.mpr hne
  have hlm : (sp.take m).length = m := by
    rw [List.length_take]
    omega
  have hlen_a : a.length = bl.length + m + 1 := by
    have hld := congrArg List.length hdl
    rw [List.length_dropLast, List.length_append, hlm] at hld
    omega
  have hA : bl ++ sp.take (m+1) <+: bl ++ sp.take j := by
    rw [List.prefix_append_right_inj]
    have h1 : sp.take (m+1) = (sp.take j).take (m+1) := by
      rw [List.take_take]
      congr 1
      omega
    rw [h1]
    exact List.take_prefix _ _
  have hlen_A : (bl ++ sp.take (m+1)).length = bl.length + (m + 1) := by
    rw [List.length_append, List.length_take]
    omega
  exact (List.prefix_of_prefix_length_le hp hA (by omega)).eq_of_length (by omega)

lemma contains_documents_of_value (binfo : BackupInfo) (d : String)
    (hd : d ∈ bdValues binfo.documents) (dir : Path) (hp : dir <+: splitPath d) :
    contains_documents binfo dir = true := by
  unfold contains_documents
  rw [List.any_eq_true]
  obtain ⟨e, he, hed⟩ := List.mem_map.mp hd
  exact ⟨e, he, by simp [isRelativeTo, hed, hp]⟩

lemma contains_mem (l : List String) (x : String) (h : x ∈ l) : l.contains x = true :=
  List.elem_iff.mpr h

lemma mem_of_contains (l : List String) (x : String) (h : l.contains x = true) : x ∈ l :=
  List.elem_iff.mp h

/-- The central induction over the orphan sweep.  For a run of
`_remove_unaccounted_files_in_non_document_dir` on `dir`: (frame) nothing
strictly outside `dir` changes; (root record) with the ignore flag set,
the file `dir/info.json` is untouched; (tracked records) for every
tracked document path `d` that is normal (joins back to itself), claims no
ancestor directory of its own (non-nested), and whose directory chain
below `dir` exists with its record file on disk, the whole chain and the
record file survive. -/
theorem sweepNonDoc_master (bl : Path) (binfo : BackupInfo) :
    ∀ fuel fs dir ign fs',
      remove_unaccounted_files_in_non_document_dir bl binfo fuel fs dir ign = .ok fs' →
      ((∀ p, ¬ (dir <+: p ∧ dir ≠ p) → fs'.readFile p = fs.readFile p ∧ fs'.isDir p = fs.isDir p)
       ∧ (ign = true → fs'.readFile (dir ++ ["info.json"]) = fs.readFile (dir ++ ["info.json"]))
       ∧ (∀ d, d ∈ bdValues binfo.documents →
            joinPath (splitPath d) = d →
            (∀ j, j < (splitPath d).length →
              joinPath ((splitPath d).take j) ∉ bdValues binfo.documents) →
            ∀ m, m < (splitPath d).length → dir = bl ++ (splitPath d).take m →
            (∀ j, m < j → j ≤ (splitPath d).length →
              fs.isDir (bl ++ (splitPath d).take j) = true) →
            fs.isFile (bl ++ splitPath d ++ ["info.json"]) = true →
            ((∀ j, m < j → j ≤ (splitPath d).length →
                fs'.isDir (bl ++ (splitPath d).take j) = true)
             ∧ fs'.readFile (bl ++ splitPath d ++ ["info.json"])
                 = fs.readFile (bl ++ splitPath d ++ ["info.json"]))))
  | 0, fs, dir, ign, fs', hok => by cases hok
  | (fuel+1), fs, dir, ign, fs', hok => by
    unfold remove_unaccounted_files_in_non_document_dir at hok
    refine foldlM_invariant _ (fs.children dir)
      (fun s =>
        (∀ p, ¬ (dir <+: p ∧ dir ≠ p) →
          s.readFile p = fs.readFile p ∧ s.isDir p = fs.isDir p)
        ∧ (ign = true →
            s.readFile (dir ++ ["info.json"]) = fs.readFile (dir ++ ["info.json"]))
        ∧ (∀ d, d ∈ bdValues binfo.documents →
             joinPath (splitPath d) = d →
             (∀ j, j < (splitPath d).length →
               joinPath ((splitPath d).take j) ∉ bdValues binfo.documents) →
             ∀ m, m < (splitPath d).length → dir = bl ++ (splitPath d).take m →
             (∀ j, m < j → j ≤ (splitPath d).length →
               fs.isDir (bl ++ (splitPath d).take j) = true) →
             fs.isFile (bl ++ splitPath d ++ ["info.json"]) = true →
             ((∀ j, m < j → j ≤ (splitPath d).length →
                 s.isDir (bl ++ (splitPath d).take j) = true)
              ∧ s.readFile (bl ++ splitPath d ++ ["info.json"])
                  = fs.readFile (bl ++ splitPath d ++ ["info.json"]))))
      ?_ fs fs' ⟨fun p _ => ⟨rfl, rfl⟩, fun _ => rfl,
        fun d _ _ _ m _ _ hchain hfile => ⟨hchain, rfl⟩⟩ hok
    intro s a s' ha hP hstep
    obtain ⟨hdl, hne⟩ := children_spec fs dir a ha
    have hdira : dir <+: a := prefix_of_child a dir hdl hne
    -- Generic reassembly of the invariant from a step that only affects
    -- the subtree of `a`, in the case where `a` is not the next directory
    -- on a tracked chain (that case is handled separately below).
    have hout : ∀ p, ¬ (dir <+: p ∧ dir ≠ p) → ¬ a <+: p := by
      rintro p hp hap
      apply hp
      refine ⟨hdira.trans hap, ?_⟩
      rintro rfl
      exact child_not_prefix_parent a dir hdl hne hap
    by_cases h1 : (ign = true) ∧ a.getLastD "" = "info.json"
    · rw [if_pos (by simpa using h1)] at hstep
      cases hstep
      exact hP
    · rw [if_neg (by simpa using h1)] at hstep
      have hinfo_ne : ign = true → ¬ a <+: dir ++ ["info.json"] := by
        intro hign hap
        have : a = dir ++ ["info.json"] :=
          child_eq_of_prefix a (dir ++ ["info.json"]) dir hdl hne (by simp) (by simp) hap
        apply h1
        refine ⟨hign, ?_⟩
        rw [this]
        simp
      -- Framed reassembly for all cases where the step's effect stays in
      -- the subtree of `a`; the case where `a` is the next directory on a
      -- tracked chain is discharged by the second argument.
      have rebuild : (∀ q, ¬ a <+: q →
            s'.readFile q = s.readFile q ∧ s'.isDir q = s.isDir q) →
          (∀ d, d ∈ bdValues binfo.documents →
             joinPath (splitPath d) = d →
             (∀ j, j < (splitPath d).length →
               joinPath ((splitPath d).take j) ∉ bdValues binfo.documents) →
             ∀ m, m < (splitPath d).length → dir = bl ++ (splitPath d).take m →
             a = bl ++ (splitPath d).take (m+1) →
             (∀ j, m < j → j ≤ (splitPath d).length →
               s.isDir (bl ++ (splitPath d).take j) = true) →
             (s.readFile (bl ++ splitPath d ++ ["info.json"])
                 = fs.readFile (bl ++ splitPath d ++ ["info.json"])) →
             (fs.isFile (bl ++ splitPath d ++ ["info.json"]) = true) →
             ((∀ j, m < j → j ≤ (splitPath d).length →
                 s'.isDir (bl ++ (splitPath d).take j) = true)
              ∧ s'.readFile (bl ++ splitPath d ++ ["info.json"])
                  = s.readFile (bl ++ splitPath d ++ ["info.json"]))) →
          ((∀ p, ¬ (dir <+: p ∧ dir ≠ p) →
             s'.readFile p = fs.readFile p ∧ s'.isDir p = fs.isDir p)
           ∧ (ign = true →
               s'.readFile (dir ++ ["info.json"]) = fs.readFile (dir ++ ["info.json"]))
           ∧ (∀ d, d ∈ bdValues binfo.documents →
                joinPath (splitPath d) = d →
                (∀ j, j < (splitPath d).length →
                  joinPath ((splitPath d).take j) ∉ bdValues binfo.documents) →
                ∀ m, m < (splitPath d).length → dir = bl ++ (splitPath d).take m →
                (∀ j, m < j → j ≤ (splitPath d).length →
                  fs.isDir (bl ++ (splitPath d).take j) = true) →
                fs.isFile (bl ++ splitPath d ++ ["info.json"]) = true →
                ((∀ j, m < j → j ≤ (splitPath d).length →
                    s'.isDir (bl ++ (splitPath d).take j) = true)
                 ∧ s'.readFile (bl ++ splitPath d ++ ["info.json"])
                     = fs.readFile (bl ++ splitPath d ++ ["info.json"])))) := by
        intro hframe hchaincase
        refine ⟨?_, ?_, ?_⟩
        · intro p hp
          obtain ⟨hr, hd⟩ := hframe p (hout p hp)
          exact ⟨hr.trans (hP.1 p hp).1, hd.trans (hP.1 p hp).2⟩
        · intro hign
          obtain ⟨hr, -⟩ := hframe (dir ++ ["info.json"]) (hinfo_ne hign)
          exact hr.trans (hP.2.1 hign)
        · intro d hd hnorm hnest m hm hdir hchain hfile
          obtain ⟨hchain_s, hread_s⟩ :=
            hP.2.2 d hd hnorm hnest m hm hdir hchain hfile
          by_cases haA : a = bl ++ (splitPath d).take (m+1)
          · obtain ⟨hc2, hr2⟩ := hchaincase d hd hnorm hnest m hm hdir haA hchain_s
              hread_s hfile
            exact ⟨hc2, hr2.trans hread_s⟩
          · have hnotpre : ∀ j, m < j → j ≤ (splitPath d).length →
                ¬ a <+: bl ++ (splitPath d).take j := by
              intro j hj hjn hap
              exact haA (chain_child_eq bl (splitPath d) m j a (hdir ▸ hdl) hne hm hj hjn hap)
            have hnr : ¬ a <+: bl ++ splitPath d ++ ["info.json"] := by
              intro hap
              have hpre : a <+: bl ++ splitPath d := by
                refine List.prefix_of_prefix_length_le hap
                  (List.prefix_append (bl ++ splitPath d) ["info.json"]) ?_
                have hpos := List.length_pos.mpr hne
                have hld := congrArg List.length (hdir ▸ hdl)
                rw [List.length_dropLast, List.length_append, List.length_take] at hld
                rw [List.length_append]
                omega
              apply hnotpre (splitPath d).length hm (le_refl _)
              rw [List.take_length]
              exact hpre
            refine ⟨?_, ?_⟩
            · intro j hj hjn
              obtain ⟨-, hdq⟩ := hframe (bl ++ (splitPath d).take j) (hnotpre j hj hjn)
              rw [hdq]
              exact hchain_s j hj hjn
            · obtain ⟨hrq, -⟩ := hframe (bl ++ splitPath d ++ ["info.json"]) hnr
              exact hrq.trans hread_s
      by_cases h2 : s.isDir a = true
      · rw [if_neg (by simpa using h2)] at hstep
        by_cases h3 : (bdValues binfo.documents).contains (joinPath (a.drop bl.length)) = true
        · rw [if_pos h3] at hstep
          apply rebuild (fun q hq => docSweep_frame s a s' hstep q hq)
          intro d hd hnorm hnest m hm hdir haA hchain_s hread_s hfile
          have hdrop : a.drop bl.length = (splitPath d).take (m+1) := by
            rw [haA, List.drop_left]
          by_cases hmn : m + 1 = (splitPath d).length
          · have haD : a = bl ++ splitPath d := by
              rw [haA, hmn, List.take_length]
            have hfile_s : s.isFile (bl ++ splitPath d ++ ["info.json"]) = true := by
              rw [isFile_iff_readFile, hread_s, ← isFile_iff_readFile]
              exact hfile
            obtain ⟨hr2, hd2⟩ := docSweep_record s a s' hstep (by rw [haD]; exact hfile_s)
            refine ⟨?_, ?_⟩
            · intro j hj hjn
              have hj2 : j = m + 1 := by omega
              subst hj2
              rw [← haA, hd2]
              rw [haA]
              exact hchain_s (m+1) hj (by omega)
            · rw [haD] at hr2
              exact hr2
          · exfalso
            rw [hdrop] at h3
            exact hnest (m+1) (by omega) (mem_of_contains _ _ h3)
        · rw [if_neg h3] at hstep
          by_cases h4 : contains_documents binfo (a.drop bl.length) = true
          · rw [if_pos h4] at hstep
            obtain ⟨hframe_rec, hB_rec, hC_rec⟩ :=
              sweepNonDoc_master bl binfo fuel s a false s' hstep
            apply rebuild (fun q hq => hframe_rec q (fun hc => hq hc.1))
            intro d hd hnorm hnest m hm hdir haA hchain_s hread_s hfile
            have hdrop : a.drop bl.length = (splitPath d).take (m+1) := by
              rw [haA, List.drop_left]
            by_cases hmn : m + 1 = (splitPath d).length
            · exfalso
              apply h3
              rw [hdrop, hmn, List.take_length, hnorm]
              exact contains_mem _ _ hd
            · have hfile_s : s.isFile (bl ++ splitPath d ++ ["info.json"]) = true := by
                rw [isFile_iff_readFile, hread_s, ← isFile_iff_readFile]
                exact hfile
              obtain ⟨hc_rec, hr_rec⟩ := hC_rec d hd hnorm hnest (m+1) (by omega)
                haA (fun j hj hjn => hchain_s j (by omega) hjn) hfile_s
              refine ⟨?_, hr_rec⟩
              intro j hj hjn
              by_cases hj1 : j = m + 1
              · subst hj1
                have := (hframe_rec a (by simp)).2
                rw [← haA, this, haA]
                exact hchain_s (m+1) hj hjn
              · exact hc_rec j (by omega) hjn
          · rw [if_neg h4] at hstep
            apply rebuild (fun q hq => rmtree_frame s a s' hstep q hq)
            intro d hd hnorm hnest m hm hdir haA hchain_s hread_s hfile
            exfalso
            apply h4
            rw [haA, List.drop_left]
            exact contains_documents_of_value binfo d hd _ (List.take_prefix _ _)
      · rw [if_pos (by simpa using h2)] at hstep
        apply rebuild (fun q hq => unlink_frame s a s' hstep q hq)
        intro d hd hnorm hnest m hm hdir haA hchain_s hread_s hfile
        exfalso
        apply h2
        rw [haA]
        exact hchain_s (m+1) (by omega) (by omega)

/-- C10 counterexample: with nested tracked paths `x` and `x/y`, the sweep
deletes the nested document's directory — including its record file
`x/y/info.json` — because `y` is not a filename in `x`'s record, so "every
document record file survives every sweep" fails as stated. -/
theorem C10_counterexample :
    (remove_unaccounted_files ["backup"] binfoNested fsNested).map
        (fun fs => fs.readFile ["backup", "x", "y", "info.json"]) = .ok none
      ∧ fsNested.isFile ["backup", "x", "y", "info.json"] = true
      ∧ "x/y" ∈ bdValues binfoNested.documents :=
  ⟨rfl, rfl, by decide⟩

/-- C10 (amended): the orphan sweep preserves the Backup State file at the
backup root, and it preserves the record file of every tracked document
whose stored path is normal (splitting and re-joining it is the identity)
and non-nested (no stored path — itself included — equals the join of a
proper ancestor prefix), provided the document's directory chain exists on
disk with its record file. -/
theorem C10_orphan_sweep (bl : Path) (binfo : BackupInfo) (fs fs' : FS)
    (hok : remove_unaccounted_files bl binfo fs = .ok fs') :
    (fs'.readFile (bl ++ ["info.json"]) = fs.readFile (bl ++ ["info.json"]))
    ∧ (∀ d, d ∈ bdValues binfo.documents →
        0 < (splitPath d).length →
        joinPath (splitPath d) = d →
        (∀ j, j < (splitPath d).length →
          joinPath ((splitPath d).take j) ∉ bdValues binfo.documents) →
        (∀ j, 0 < j → j ≤ (splitPath d).length →
          fs.isDir (bl ++ (splitPath d).take j) = true) →
        fs.isFile (bl ++ splitPath d ++ ["info.json"]) = true →
        fs'.readFile (bl ++ splitPath d ++ ["info.json"])
          = fs.readFile (bl ++ splitPath d ++ ["info.json"])) := by
  unfold remove_unaccounted_files at hok
  obtain ⟨hA, hB, hC⟩ := sweepNonDoc_master bl binfo (fs.dirs.length + 1) fs bl true fs' hok
  refine ⟨hB rfl, ?_⟩
  intro d hd hn hnorm hnest hchain hfile
  exact (hC d hd hnorm hnest 0 hn (by simp) hchain hfile).2

/-- C10 witness. -/
theorem C10_orphan_sweep_witness :
    ∃ fs', remove_unaccounted_files ["backup"] binfoC1 fsC1 = .ok fs' ∧
      fs'.readFile (["backup"] ++ ["info.json"])
        = fsC1.readFile (["backup"] ++ ["info.json"]) ∧
      fs'.readFile (["backup"] ++ splitPath "T" ++ ["info.json"])
        = fsC1.readFile (["backup"] ++ splitPath "T" ++ ["info.json"]) := by
  refine ⟨fsC1, rfl, ?_, ?_⟩
  · exact (C10_orphan_sweep ["backup"] binfoC1 fsC1 fsC1 rfl).1
  · refine (C10_orphan_sweep ["backup"] binfoC1 fsC1 fsC1 rfl).2 "T" (by decide)
      (by decide) (by decide) ?_ ?_ (by decide)
    · intro j hj
      have hj0 : j = 0 := by
        have : (splitPath "T").length = 1 := by decide
        omega
      subst hj0
      decide
    · intro j h0 h1
      have hj1 : j = 1 := by
        have : (splitPath "T").length = 1 := by decide
        omega
      subst hj1
      decide

/-! ### Second-run lemmas (C2): inversion, well-formedness and a clean-tree
predicate under which the sweep is the identity. -/

lemma bind_ok_inv {α β : Type} (x : Except String α) (f : α → Except String β) (r : β)
    (h : (x >>= f) = .ok r) : ∃ v, x = .ok v ∧ f v = .ok r := by
  cases x with
  | error e => exact absurd h (by simp [bind, Except.bind])
  | ok v => exact ⟨v, rfl, by simpa [bind, Except.bind] using h⟩

lemma find?_map_update {β : Type} (files : List (Path × β)) (p : Path) (d : β)
    (hany : files.any (fun e => e.1 = p) = true) :
    (files.map (fun e => if e.1 = p then (p, d) else e)).find? (fun e => e.1 = p)
      = some (p, d) := by
  induction files with
  | nil => simp at hany
  | cons e rest ih =>
    by_cases hep : e.1 = p
    · simp [List.find?_cons, hep]
    · rw [List.any_cons, decide_eq_false hep, Bool.false_or] at hany
      simp only [List.map_cons, if_neg hep, List.find?_cons, decide_eq_false hep]
      exact ih hany

lemma find?_map_update_ne {β : Type} (files : List (Path × β)) (p q : Path) (d : β)
    (hq : q ≠ p) :
    (files.map (fun e => if e.1 = p then (p, d) else e)).find? (fun e => e.1 = q)
      = files.find? (fun e => e.1 = q) := by
  induction files with
  | nil => rfl
  | cons e rest ih =>
    by_cases hep : e.1 = p
    · have hpq : ¬ p = q := fun hc => hq hc.symm
      have heq : ¬ e.1 = q := by
        rw [hep]
        exact hpq
      simp only [List.map_cons, if_pos hep, List.find?_cons, decide_eq_false hpq,
        decide_eq_false heq]
      exact ih
    · by_cases heq : e.1 = q
      · simp only [List.map_cons, if_neg hep, List.find?_cons, decide_eq_true heq]
      · simp only [List.map_cons, if_neg hep, List.find?_cons, decide_eq_false heq]
        exact ih

lemma isFile_false_find?_none (fs : FS) (p : Path) (h : fs.isFile p = false) :
    fs.files.find? (fun e => e.1 = p) = none := by
  rw [List.find?_eq_none]
  intro e he hep
  have : fs.isFile p = true := by
    unfold FS.isFile
    rw [List.any_eq_true]
    exact ⟨e, he, hep⟩
  rw [h] at this
  cases this

lemma writeFile_ok (fs : FS) (p : Path) (d : FileData) (fs' : FS)
    (h : fs.writeFile p d = .ok fs') :
    fs'.readFile p = some d
    ∧ (∀ q, q ≠ p → fs'.readFile q = fs.readFile q)
    ∧ fs'.dirs = fs.dirs
    ∧ fs.isDir p = false := by
  unfold FS.writeFile at h
  by_cases h1 : fs.isDir p = true
  · rw [if_pos h1] at h
    cases h
  rw [if_neg h1] at h
  by_cases h2 : p = []
  · rw [if_pos h2] at h
    cases h
  rw [if_neg h2] at h
  by_cases h3 : p.dropLast = [] ∨ fs.isDir p.dropLast = true
  case neg =>
    rw [if_pos h3] at h
    cases h
  rw [if_neg (not_not_intro h3)] at h
  by_cases h4 : fs.isFile p = true
  · rw [if_pos h4] at h
    injection h with h5
    subst h5
    refine ⟨?_, ?_, rfl, by simpa using h1⟩
    · show ((fs.files.map (fun e => if e.1 = p then (p, d) else e)).find?
        (fun e => e.1 = p)).map Prod.snd = some d
      rw [find?_map_update fs.files p d h4]
      rfl
    · intro q hq
      show ((fs.files.map (fun e => if e.1 = p then (p, d) else e)).find?
        (fun e => e.1 = q)).map Prod.snd = _
      rw [find?_map_update_ne fs.files p q d hq]
      rfl
  · rw [if_neg h4] at h
    injection h with h5
    subst h5
    refine ⟨?_, ?_, rfl, by simpa using h1⟩
    · show ((fs.files ++ [(p, d)]).find? (fun e => e.1 = p)).map Prod.snd = some d
      rw [List.find?_append, isFile_false_find?_none fs p (by simpa using h4)]
      simp [List.find?_cons]
    · intro q hq
      show ((fs.files ++ [(p, d)]).find? (fun e => e.1 = q)).map Prod.snd = _
      rw [List.find?_append]
      have hsing : ([(p, d)].find? (fun e => e.1 = q)) = none := by
        rw [List.find?_eq_none]
        intro e he hep
        rw [List.mem_singleton] at he
        rw [he] at hep
        exact hq (of_decide_eq_true hep).symm
      rw [hsing]
      cases hf : fs.files.find? (fun e => e.1 = q) <;> simp [FS.readFile, hf]

lemma isDir_eq_of_dirs_eq (fs fs' : FS) (h : fs'.dirs = fs.dirs) (p : Path) :
    fs'.isDir p = fs.isDir p := by
  unfold FS.isDir
  rw [h]

lemma isFile_eq_readFile_isSome (fs : FS) (p : Path) :
    fs.isFile p = (fs.readFile p).isSome := by
  cases h : fs.isFile p
  · cases h2 : (fs.readFile p).isSome
    · rfl
    · rw [← isFile_iff_readFile] at h2
      rw [h] at h2
      cases h2
  · exact ((isFile_iff_readFile fs p).mp h).symm

lemma rmtree_self_not_exists (fs : FS) (p : Path) (fs' : FS) (h : fs.rmtree p = .ok fs') :
    fs'.pathExists p = false := by
  rw [rmtree_ok fs p fs' h]
  unfold FS.pathExists FS.isDir FS.isFile
  rw [Bool.or_eq_false_iff]
  constructor
  · rw [List.any_eq_false]
    intro q hq
    have := (List.mem_filter.mp hq).2
    simp only [decide_eq_true_eq] at this
    intro hc
    simp only [decide_eq_true_eq] at hc
    exact this (hc ▸ List.prefix_refl p)
  · rw [List.any_eq_false]
    intro e he
    have := (List.mem_filter.mp he).2
    simp only [decide_eq_true_eq] at this
    intro hc
    simp only [decide_eq_true_eq] at hc
    exact this (hc ▸ List.prefix_refl p)

lemma mkdirParents_self_inv (fs : FS) (p : Path) (h : fs.mkdirParents p = .ok fs) :
    p = [] ∨ fs.isDir p = true := by
  unfold FS.mkdirParents at h
  by_cases hany : p.inits.any (fun q => fs.isFile q) = true
  · rw [if_pos hany] at h
    cases h
  · rw [if_neg hany] at h
    injection h with h2
    have hd : fs.dirs ++ p.inits.filter (fun q => q ≠ [] ∧ ¬ fs.isDir q) = fs.dirs :=
      congrArg FS.dirs h2
    have hfilt : p.inits.filter (fun q => q ≠ [] ∧ ¬ fs.isDir q) = [] :=
      List.append_right_eq_self.mp hd
    have hp : p ∈ p.inits := by simp [List.mem_inits]
    have := List.filter_eq_nil_iff.mp hfilt p hp
    by_cases hnil : p = []
    · exact Or.inl hnil
    · right
      simp only [hnil, decide_eq_true_eq, not_and, not_not, ne_eq,
        not_false_eq_true, true_implies] at this
      exact this

lemma load_encode_state (b : BackupInfo) (t : Int) (hb : b.last_backup_time = some t)
    (h : bdWF b.documents) : BackupInfo.load (encodeBackupInfo b) = .ok b := by
  obtain ⟨pat, lbt, docs⟩ := b
  simp only at hb h
  subst hb
  exact load_encode_backupInfo pat t docs h

lemma temp_ne_info (bl : Path) : bl ++ [".temp"] ≠ bl ++ ["info.json"] := by
  intro h
  have := List.append_cancel_left h
  simp at this

/-- Inversion of the tail of `execute` (from the sweep on): whatever the
loops did, the returned state carries the run's timestamp, the returned
tree holds its encoding at the root `info.json`, that path is not a
directory, and the staging directory is gone. -/
lemma executeTail_post (env : Env) (vfs : FS) (binfo0 : BackupInfo)
    (b1 : BackupInfo) (h1 : ActionHist) (fs1 : FS)
    (hrun : (do
        let fs ← remove_unaccounted_files env.backup_location binfo0 vfs
        let cl ← classifyDocs binfo0 env.docs
        let st : RunState :=
          { fs := fs, binfo := binfo0, history := cl.history,
            temporary_stored_documents := [], lastDoc := none }
        let st ← List.foldlM (processRemoved env.backup_location) st (removedIds binfo0 cl)
        let st ← List.foldlM (processModified env) st cl.modified_document_ids
        let st ← List.foldlM (processNew env) st cl.new_document_ids
        let st ← List.foldlM (resolveStaged env) st st.temporary_stored_documents
        let fs ← if st.fs.pathExists (env.backup_location ++ [".temp"]) then
            st.fs.rmtree (env.backup_location ++ [".temp"])
          else pure st.fs
        let binfo := { st.binfo with last_backup_time := some env.now }
        let fs ← fs.writeFile (env.backup_location ++ ["info.json"])
          (FileData.jsonFile (encodeBackupInfo binfo))
        pure (binfo, st.history, fs)) = .ok (b1, h1, fs1)) :
    b1.last_backup_time = some env.now
    ∧ fs1.readFile (env.backup_location ++ ["info.json"])
        = some (.jsonFile (encodeBackupInfo b1))
    ∧ fs1.isDir (env.backup_location ++ ["info.json"]) = false
    ∧ fs1.pathExists (env.backup_location ++ [".temp"]) = false := by
  obtain ⟨v3, h3a, hrun⟩ := bind_ok_inv _ _ _ hrun
  obtain ⟨cl, h4a, hrun⟩ := bind_ok_inv _ _ _ hrun
  obtain ⟨st5, h5a, hrun⟩ := bind_ok_inv _ _ _ hrun
  obtain ⟨st6, h6a, hrun⟩ := bind_ok_inv _ _ _ hrun
  obtain ⟨st7, h7a, hrun⟩ := bind_ok_inv _ _ _ hrun
  obtain ⟨st8, h8a, hrun⟩ := bind_ok_inv _ _ _ hrun
  dsimp only at hrun
  have hmain : ∀ (fs9 : FS) (binfoS : BackupInfo) (hist : ActionHist),
      fs9.pathExists (env.backup_location ++ [".temp"]) = false →
      binfoS.last_backup_time = some env.now →
      (fs9.writeFile (env.backup_location ++ ["info.json"])
          (FileData.jsonFile (encodeBackupInfo binfoS))
        >>= fun fs => pure (binfoS, hist, fs)) = Except.ok (b1, h1, fs1) →
      b1.last_backup_time = some env.now
      ∧ fs1.readFile (env.backup_location ++ ["info.json"])
          = some (.jsonFile (encodeBackupInfo b1))
      ∧ fs1.isDir (env.backup_location ++ ["info.json"]) = false
      ∧ fs1.pathExists (env.backup_location ++ [".temp"]) = false := by
    intro fs9 binfoS hist htemp9 hlbt hrun2
    obtain ⟨fsw, h10a, hrun2⟩ := bind_ok_inv _ _ _ hrun2
    simp only [pure, Except.pure, Except.ok.injEq, Prod.mk.injEq] at hrun2
    obtain ⟨hb, hh, hf⟩ := hrun2
    subst hf
    obtain ⟨hw1, hw2, hw3, hw4⟩ := writeFile_ok _ _ _ _ h10a
    refine ⟨?_, ?_, ?_, ?_⟩
    · rw [← hb]
      exact hlbt
    · rw [hw1, ← hb]
    · rw [isDir_eq_of_dirs_eq fs9 fsw hw3]
      simpa using hw4
    · unfold FS.pathExists
      rw [isDir_eq_of_dirs_eq fs9 fsw hw3]
      rw [isFile_eq_readFile_isSome, hw2 _ (temp_ne_info env.backup_location),
        ← isFile_eq_readFile_isSome]
      unfold FS.pathExists at htemp9
      rw [Bool.or_eq_false_iff] at htemp9
      rw [htemp9.1, htemp9.2]
      rfl
  split at hrun
  case isTrue hc =>
    obtain ⟨fs9, h9a, hrun⟩ := bind_ok_inv _ _ _ hrun
    exact hmain fs9 _ _ (rmtree_self_not_exists _ _ _ h9a) rfl hrun
  case isFalse hc =>
    obtain ⟨fs9, h9a, hrun⟩ := bind_ok_inv _ _ _ hrun
    simp only [pure, Except.pure, Except.ok.injEq] at h9a
    subst h9a
    exact hmain st8.fs _ _ (by simpa using hc) rfl hrun

/-- What a successful run guarantees about its outputs: the persisted
state carries the run's timestamp, the root `info.json` holds its
encoding, that path is not a directory, and the staging directory is
gone. -/
lemma execute_post (env : Env) (fs0 fs1 : FS) (b1 : BackupInfo) (h1 : ActionHist)
    (hrun : execute env fs0 = .ok (b1, h1, fs1)) :
    b1.last_backup_time = some env.now
    ∧ fs1.readFile (env.backup_location ++ ["info.json"])
        = some (.jsonFile (encodeBackupInfo b1))
    ∧ fs1.isDir (env.backup_location ++ ["info.json"]) = false
    ∧ fs1.pathExists (env.backup_location ++ [".temp"]) = false := by
  unfold execute at hrun
  obtain ⟨v1, h1a, hrun⟩ := bind_ok_inv _ _ _ hrun
  dsimp only at hrun
  split at hrun
  · split at hrun
    · simp [bind, Except.bind] at hrun
    · split at hrun
      · obtain ⟨binfo0, hload, hrun⟩ := bind_ok_inv _ _ _ hrun
        exact executeTail_post env v1 binfo0 b1 h1 fs1 hrun
      · simp [bind, Except.bind] at hrun
      · simp [bind, Except.bind] at hrun
  · obtain ⟨binfo0, hfresh, hrun⟩ := bind_ok_inv _ _ _ hrun
    exact executeTail_post env v1 binfo0 b1 h1 fs1 hrun

lemma ok_bind {α β : Type} (v : α) (f : α → Except String β) :
    (Except.ok v >>= f) = f v := rfl

lemma pure_bind_except {α β : Type} (v : α) (f : α → Except String β) :
    ((pure v : Except String α) >>= f) = f v := rfl

/-- C2 (amended): the second of two runs on an unchanged remote document
set records only `None` actions and rewrites only the root `info.json`,
provided every document was last modified strictly before the first run's
time, the first run's state tracks exactly the remote ids (with the
bidict invariant), and the tree the first run left is fixed by the
opening `mkdir` and by the orphan sweep. -/
theorem C2_second_run (env : Env) (n2 : Int) (fs0 fs1 : FS) (b1 : BackupInfo)
    (h1 : ActionHist)
    (hrun1 : execute env fs0 = .ok (b1, h1, fs1))
    (hts : ∀ d ∈ env.docs, d.last_modified < env.now)
    (htracked : ∀ d ∈ env.docs, bdContains b1.documents d.id = true)
    (hkeys : ∀ k ∈ bdKeys b1.documents, ∃ d ∈ env.docs, d.id = k)
    (hwfb : bdWF b1.documents)
    (hmk : fs1.mkdirParents env.backup_location = .ok fs1)
    (hsweep : remove_unaccounted_files env.backup_location b1 fs1 = .ok fs1) :
    ∃ b2 h2 fs2, execute { env with now := n2 } fs1 = .ok (b2, h2, fs2)
      ∧ (∀ e ∈ h2, ∃ k, e = (k, Action.noneAction k))
      ∧ (∀ d ∈ env.docs, (d.id, Action.noneAction d.id) ∈ h2)
      ∧ b2.documents = b1.documents ∧ b2.pattern = b1.pattern
      ∧ fs2.dirs = fs1.dirs
      ∧ ∀ q, q ≠ env.backup_location ++ ["info.json"] →
          fs2.readFile q = fs1.readFile q := by
  obtain ⟨hb1t, hread, hdir, htemp⟩ := execute_post env fs0 fs1 b1 h1 hrun1
  obtain ⟨cl, hcl, hh, h1m, h2u, h3n⟩ :=
    classifyDocs_go b1 env.now hb1t env.docs ⟨[], [], [], []⟩ rfl
  have hclEq : classifyDocs b1 env.docs = .ok cl := hcl
  have hmod : cl.modified_document_ids = [] := by
    rw [List.eq_nil_iff_forall_not_mem]
    intro k hk
    rcases (h1m k).mp hk with hk0 | ⟨d, hd, -, -, hle⟩
    · exact List.not_mem_nil k hk0
    · exact absurd hle (not_le.mpr (hts d hd))
  have hnew : cl.new_document_ids = [] := by
    rw [List.eq_nil_iff_forall_not_mem]
    intro k hk
    rcases (h3n k).mp hk with hk0 | ⟨d, hd, hdk, hfalse⟩
    · exact List.not_mem_nil k hk0
    · have htr := htracked d hd
      rw [hdk, hfalse] at htr
      cases htr
  have hunm : ∀ d ∈ env.docs, d.id ∈ cl.unmodified_document_ids := fun d hd =>
    (h2u d.id).mpr (Or.inr ⟨d, hd, rfl, htracked d hd, hts d hd⟩)
  have hrem : removedIds b1 cl = [] := by
    unfold removedIds
    rw [List.filter_eq_nil_iff]
    intro k hk
    obtain ⟨d, hd, hdk⟩ := hkeys k hk
    have hku : cl.unmodified_document_ids.contains k = true :=
      contains_mem _ _ (hdk ▸ hunm d hd)
    simp only [decide_eq_true_eq]
    exact not_not_intro (Or.inr hku)
  have hload : BackupInfo.load (encodeBackupInfo b1) = .ok b1 :=
    load_encode_state b1 env.now hb1t hwfb
  have hfile : fs1.isFile (env.backup_location ++ ["info.json"]) = true := by
    rw [isFile_eq_readFile_isSome, hread]
    rfl
  have hpe : fs1.pathExists (env.backup_location ++ ["info.json"]) = true := by
    unfold FS.pathExists
    rw [hfile, Bool.or_true]
  have hdirNe : ¬ fs1.isDir (env.backup_location ++ ["info.json"]) = true := by
    rw [hdir]
    exact Bool.false_ne_true
  have htempNe : ¬ fs1.pathExists (env.backup_location ++ [".temp"]) = true := by
    rw [htemp]
    exact Bool.false_ne_true
  have hbl : env.backup_location = [] ∨ fs1.isDir env.backup_location = true :=
    mkdirParents_self_inv fs1 env.backup_location hmk
  have hw : ∃ fsr, fs1.writeFile (env.backup_location ++ ["info.json"])
      (FileData.jsonFile (encodeBackupInfo { b1 with last_backup_time := some n2 }))
      = .ok fsr := by
    unfold FS.writeFile
    rw [if_neg hdirNe, if_neg (by simp), if_neg (not_not_intro (by
      rw [List.dropLast_concat]
      exact hbl)), if_pos hfile]
    exact ⟨_, rfl⟩
  obtain ⟨fsr, hw⟩ := hw
  obtain ⟨hr1, hr2, hr3, -⟩ := writeFile_ok _ _ _ _ hw
  refine ⟨{ b1 with last_backup_time := some n2 }, cl.history, fsr, ?_, ?_, ?_,
    rfl, rfl, hr3, hr2⟩
  · unfold execute
    try dsimp only
    rw [hmk]
    simp only [ok_bind]
    rw [if_pos hpe, if_neg hdirNe, hread]
    try dsimp only
    rw [hload]
    simp only [ok_bind]
    rw [hsweep]
    simp only [ok_bind]
    rw [hclEq]
    simp only [ok_bind]
    rw [hrem, hmod, hnew]
    try dsimp only
    simp only [List.foldlM_nil, pure_bind_except]
    try dsimp only
    rw [if_neg htempNe, hw]
    simp only [ok_bind]
    rfl
  · intro e he
    rw [hh] at he
    obtain ⟨k, hk, rfl⟩ := List.mem_map.mp he
    exact ⟨k, rfl⟩
  · intro d hd
    rw [hh]
    exact List.mem_map_of_mem _ (hunm d hd)

/-- C2, counterexample to the unconditional statement: document `Z` is
last modified at instant 100 and the first run happens at that same
instant 100.  The second run, with no remote change in between,
classifies `Z` as modified (the comparison on BackupWorker.py line 241 is
`>=`) and records an `Update` action — not zero non-`None` actions. -/
theorem C2_counterexample :
    secondRunHistory (envZ 100 100) (envZ 100 200) fsEmpty
      = .ok [("Z", Action.update "Z" "Z")] := rfl

theorem C2_second_run_witness :
    execute (envZ 50 100) fsEmpty = .ok (binfoZ1, [("Z", Action.add "Z" "Z")], fsZ1)
    ∧ ∃ b2 h2 fs2, execute { envZ 50 100 with now := 200 } fsZ1 = .ok (b2, h2, fs2)
      ∧ (∀ e ∈ h2, ∃ k, e = (k, Action.noneAction k))
      ∧ (∀ d ∈ (envZ 50 100).docs, (d.id, Action.noneAction d.id) ∈ h2)
      ∧ b2.documents = binfoZ1.documents ∧ b2.pattern = binfoZ1.pattern
      ∧ fs2.dirs = fsZ1.dirs
      ∧ ∀ q, q ≠ (envZ 50 100).backup_location ++ ["info.json"] →
          fs2.readFile q = fsZ1.readFile q :=
  ⟨rfl, C2_second_run (envZ 50 100) 200 fsEmpty fsZ1 binfoZ1 [("Z", Action.add "Z" "Z")]
    rfl (by decide) (by decide) (by decide) (by decide) rfl rfl⟩

end MendeleyBackup
